import Mathlib

/-!
Shallow embedding of the connector scheduling and run-execution core of the
talent-discovery ingestion service, together with proofs about the claims of
its specification.

Embedded source files:
  app/workers/scheduler.py  (calculate_next_due, _ensure_schedule_rows,
                             _parse_priority_waves, _order_due_connectors,
                             _compute_due_at, enqueue_due_jobs)
  app/workers/tasks.py      (_hash_embedding_key, _embedding_duplicate,
                             _mark_embedding_key, _payload_embedding_key,
                             _is_duplicate_source, _is_duplicate_candidate,
                             run_connector)
  app/nlp/scoring.py        (score_candidate)
  app/nlp/dedupe.py         (exact_match; fuzzy_match is kept abstract, see below)
  app/connectors/base.py    (SourcePayload, Candidate, Connector, ConnectorRegistry)
  app/models/tables.py      (Source, Candidate, Run, Schedule, Embedding rows)

Modelling conventions:
  - Python datetimes are minutes since the Unix epoch (the cadence granularity
    of the system is minutes) plus a timezone-awareness flag.
  - Database sessions are modelled by explicit `DB` values; a run's
    uncommitted changes are discarded (rollback) when an exception escapes the
    session block before `session.commit()`.
  - Exceptions are values of `PyErr`; a Python function that can raise returns
    `Except PyErr`.  A function that performs side effects before raising
    returns the partial state next to an `Option PyErr`.
  - `difflib.SequenceMatcher`-based `fuzzy_match` and the SHA-1 digest are not
    modelled bit-for-bit: every definition that uses them is parameterized by
    oracles `fuzzy : String → String → Bool` and `sha1 : String → Nat`.
    No claim below depends on their values, so all theorems hold for every
    oracle; witnesses instantiate them with concrete functions.
-/

/-! ### Python string primitives (str.lower, str.strip, str.split) -/

def pyLowerChar (c : Char) : Char :=
  if ('A'.toNat ≤ c.toNat) && (c.toNat ≤ 'Z'.toNat) then Char.ofNat (c.toNat + 32) else c

/-- ASCII embedding of Python str.lower. -/
def pyLower (s : String) : String :=
  String.mk (s.data.map pyLowerChar)

def dropTrailingWs : List Char → List Char
  | [] => []
  | c :: cs =>
    match dropTrailingWs cs with
    | [] => if c.isWhitespace then [] else [c]
    | rest => c :: rest

/-- Embedding of Python str.strip (no arguments): remove leading and trailing
whitespace. -/
def pyStrip (s : String) : String :=
  String.mk (dropTrailingWs (s.data.dropWhile Char.isWhitespace))

def splitCharsOn (sep : Char) : List Char → List (List Char)
  | [] => [[]]
  | c :: cs =>
    let rest := splitCharsOn sep cs
    if c == sep then [] :: rest
    else
      match rest with
      | [] => [[c]]
      | grp :: grps => (c :: grp) :: grps

/-- Embedding of Python str.split(sep) for a one-character separator:
keeps empty groups, and splitting the empty string yields one empty group. -/
def pySplitOn (s : String) (sep : Char) : List String :=
  (splitCharsOn sep s.data).map String.mk

/-- Embedding of Python str.split() with no separator (used for the cron
fields): split on whitespace runs, dropping empty groups. -/
def pyWords (s : String) : List String :=
  ((splitCharsOn ' ' s.data).map String.mk).filter (fun w => w != "")

def parseDigits : List Char → Option Nat
  | [] => some 0
  | c :: cs =>
    if c.isDigit then
      match parseDigits cs with
      | none => none
      | some n => some ((c.toNat - '0'.toNat) * 10 ^ cs.length + n)
    else none

/-- Embedding of a base-10 natural-number literal parse (int(s) for digit-only
strings); fails on the empty string or any non-digit character. -/
def parseNatStr (s : String) : Option Nat :=
  if s.data.isEmpty then none else parseDigits s.data

/-! ### Python values (the dict[str, Any] metadata payloads) -/

inductive PyVal where
  | pyNone
  | pyBool (b : Bool)
  | pyInt (n : Int)
  | pyStr (s : String)
  | pyDict (entries : List (String × PyVal))

/-- Python truthiness of a value. -/
def PyVal.truthy : PyVal → Bool
  | .pyNone => false
  | .pyBool b => b
  | .pyInt n => n != 0
  | .pyStr s => s != ""
  | .pyDict l => !l.isEmpty

/-- Python str(v).  The rendering of nested dicts is abbreviated; no claim
depends on it (it only feeds the dedupe-token hash oracle). -/
def pyToStr : PyVal → String
  | .pyNone => "None"
  | .pyBool true => "True"
  | .pyBool false => "False"
  | .pyInt n => toString n
  | .pyStr s => s
  | .pyDict _ => "<dict>"

/-- dict.get(k): first binding of the key, if any. -/
def metaGet (m : List (String × PyVal)) (k : String) : Option PyVal :=
  (m.find? (fun p => p.1 == k)).map (fun p => p.2)

/-- Truthiness of dict.get(k) (missing key behaves like None). -/
def metaTruthy (m : List (String × PyVal)) (k : String) : Bool :=
  match metaGet m k with
  | none => false
  | some v => v.truthy

/-- d[k] = v on a dict: replace the binding if the key is present, else append. -/
def pyDictSet (m : List (String × PyVal)) (k : String) (v : PyVal) : List (String × PyVal) :=
  if m.any (fun p => p.1 == k) then m.map (fun p => if p.1 == k then (k, v) else p)
  else m ++ [(k, v)]

/-! ### Datetimes -/

/-- A Python datetime at the system's minute granularity: minutes since the
Unix epoch (UTC wall clock) plus the tzinfo-awareness flag. -/
structure PyDatetime where
  minutes : Nat
  aware : Bool
deriving DecidableEq, Repr

/-! ### Exceptions -/

inductive PyErr where
  | keyError (key : String)
  | multipleResultsFound
  | invalidCadenceExpression
  | croniterBadDate
  | raised (msg : String)
deriving DecidableEq, Repr

/-- str(exc) used when recording a failure on the Run row. -/
def pyErrStr : PyErr → String
  | .keyError k => k
  | .multipleResultsFound => "Multiple rows were found when one or none was required"
  | .invalidCadenceExpression => "bad cron expression"
  | .croniterBadDate => "failed to find next date"
  | .raised msg => msg

/-! ### Cadence calculator (cron engine)

The repository delegates cron parsing and next-occurrence computation to the
external croniter library, which is not part of the source tree.  The engine
below is therefore modelled from the spec: a five-field cron-style expression
(minute, hour, day of month, month, day of week) either fails to parse —
`InvalidCadenceExpression`, spec section 4.1/7 — or denotes a set of matching
minutes, and the calculator returns the next occurrence strictly after the
reference time (spec sections 4.1 and 8).  When the expression's date fields
are unsatisfiable (such as February 30th) no occurrence exists within the
ten-year search horizon and the engine fails with the bad-date error, as
croniter does. -/

inductive CronField where
  | star
  | values (vals : List Nat)
deriving DecidableEq, Repr

structure CronExpr where
  minute : CronField
  hour : CronField
  dom : CronField
  month : CronField
  dow : CronField
deriving DecidableEq, Repr

/-- The values lo, lo+step, lo+2*step, ... up to hi. -/
def rangeStep (lo hi step : Nat) : List Nat :=
  (List.range (hi + 1 - lo)).filterMap (fun i => if i % step == 0 then some (lo + i) else none)

/-- Modelled from the spec: one atom of a cron field — a plain value, a range
a-b, a star or range with a /step suffix. -/
def parseCronAtom (lo hi : Nat) (atom : String) : Option (List Nat) :=
  match pySplitOn atom '/' with
  | [body] =>
    if body == "*" then some (rangeStep lo hi 1)
    else
      match pySplitOn body '-' with
      | [v] =>
        match parseNatStr v with
        | none => none
        | some n => if lo ≤ n && n ≤ hi then some [n] else none
      | [a, b] =>
        match parseNatStr a, parseNatStr b with
        | some x, some y =>
          if lo ≤ x && x ≤ y && y ≤ hi then some (rangeStep x y 1) else none
        | _, _ => none
      | _ => none
  | [body, stepStr] =>
    match parseNatStr stepStr with
    | none => none
    | some 0 => none
    | some step =>
      if body == "*" then some (rangeStep lo hi step)
      else
        match pySplitOn body '-' with
        | [a, b] =>
          match parseNatStr a, parseNatStr b with
          | some x, some y =>
            if lo ≤ x && x ≤ y && y ≤ hi then some (rangeStep x y step) else none
          | _, _ => none
        | _ => none
  | _ => none

/-- Modelled from the spec: a full cron field, a comma list of atoms or the
unrestricted star. -/
def parseCronField (lo hi : Nat) (field : String) : Option CronField :=
  if field == "*" then some .star
  else
    let atoms := (pySplitOn field ',').map (parseCronAtom lo hi)
    if atoms.any (fun a => a.isNone) then none
    else some (.values ((atoms.map (fun a => a.getD [])).flatten))

/-- Modelled from the spec: parse of a five-field cron-style cadence
expression; day-of-week values 0-7 with 7 normalized to Sunday = 0. -/
def parseCron (s : String) : Option CronExpr :=
  match pyWords s with
  | [mi, h, dm, mo, dw] =>
    match parseCronField 0 59 mi, parseCronField 0 23 h, parseCronField 1 31 dm,
          parseCronField 1 12 mo, parseCronField 0 7 dw with
    | some fmi, some fh, some fdm, some fmo, some fdw =>
      some { minute := fmi, hour := fh, dom := fdm, month := fmo,
             dow := (match fdw with
                     | .star => .star
                     | .values vs => .values (vs.map (fun v => v % 7))) }
    | _, _, _, _, _ => none
  | _ => none

/-- Proleptic Gregorian civil date (month, day of month) of a day count since
1970-01-01 (Howard Hinnant's civil-from-days algorithm). -/
def dateOfDay (day : Nat) : Nat × Nat :=
  let z := day + 719468
  let doe := z % 146097
  let yoe := (doe - doe / 1460 + doe / 36524 - doe / 146096) / 365
  let doy := doe - (365 * yoe + yoe / 4 - yoe / 100)
  let mp := (5 * doy + 2) / 153
  let d := doy - (153 * mp + 2) / 5 + 1
  let m := if mp < 10 then mp + 3 else mp - 9
  (m, d)

/-- Day of week with Sunday = 0 (1970-01-01 was a Thursday). -/
def dowOfDay (day : Nat) : Nat :=
  (day + 4) % 7

def CronField.isStar : CronField → Bool
  | .star => true
  | .values _ => false

def fieldMatches : CronField → Nat → Bool
  | .star, _ => true
  | .values vs, v => vs.contains v

/-- Standard cron day-of-month/day-of-week rule: when both fields are
restricted the day matches if either matches; a plain star leaves the other
field in charge. -/
def domDowMatches (e : CronExpr) (d dow : Nat) : Bool :=
  match e.dom.isStar, e.dow.isStar with
  | true, true => true
  | true, false => fieldMatches e.dow dow
  | false, true => fieldMatches e.dom d
  | false, false => fieldMatches e.dom d || fieldMatches e.dow dow

def dayMatches (e : CronExpr) (day : Nat) : Bool :=
  fieldMatches e.month (dateOfDay day).1 && domDowMatches e (dateOfDay day).2 (dowOfDay day)

def minuteInDayMatches (e : CronExpr) (m : Nat) : Bool :=
  fieldMatches e.minute (m % 60) && fieldMatches e.hour (m / 60)

/-- A minute-since-epoch instant satisfies the cadence expression. -/
def cronMatches (e : CronExpr) (t : Nat) : Bool :=
  dayMatches e (t / 1440) && minuteInDayMatches e (t % 1440)

/-- First value in [start, start + n) satisfying p, by binary splitting so that
the recursion depth stays logarithmic; fuel ≥ log2 n + 1 suffices. -/
def searchFirst (p : Nat → Bool) : Nat → Nat → Nat → Option Nat
  | 0, _, _ => none
  | fuel + 1, start, n =>
    if n = 0 then none
    else if n = 1 then (if p start then some start else none)
    else
      match searchFirst p fuel start (n / 2) with
      | some r => some r
      | none => searchFirst p fuel (start + n / 2) (n - n / 2)

/-- First minute of the given day that is strictly after base and matches the
minute/hour fields. -/
def findInDay (e : CronExpr) (day base : Nat) : Option Nat :=
  (searchFirst (fun m => decide (base < 1440 * day + m) && minuteInDayMatches e m) 15 0 1440).map
    (fun m => 1440 * day + m)

/-- Search horizon in days (ten years): every satisfiable cron expression has
an occurrence within it (February 29 recurs within at most eight years). -/
def cronSearchHorizon : Nat := 3660

/-- Modelled from the spec: croniter(cron, base).get_next — the first instant
strictly after base that satisfies the expression, or a bad-date failure when
the date fields are unsatisfiable within the horizon. -/
def croniterGetNext (e : CronExpr) (base : Nat) : Option Nat :=
  match searchFirst (fun day => dayMatches e day && (findInDay e day base).isSome) 20
      ((base + 1) / 1440) cronSearchHorizon with
  | none => none
  | some day => findInDay e day base

/-- The tzinfo normalization d.replace(tzinfo=timezone.utc) applied when a
datetime is naive: same wall-clock minutes, aware flag set. -/
def pyTzNormalize (d : PyDatetime) : PyDatetime :=
  if d.aware then d else { d with aware := true }

/-- Embedding of workers/scheduler.py calculate_next_due: normalize the
reference anchor (last_run or now) to an aware instant, run croniter, and
normalize the result. -/
def calculate_next_due (cron : String) (last_run : Option PyDatetime) (now : PyDatetime) :
    Except PyErr PyDatetime :=
  match parseCron cron with
  | none => .error .invalidCadenceExpression
  | some e =>
    match croniterGetNext e (pyTzNormalize (last_run.getD now)).minutes with
    | none => .error .croniterBadDate
    | some t =>
      .ok (pyTzNormalize { minutes := t, aware := (pyTzNormalize (last_run.getD now)).aware })

/-! ### Soundness of the cadence calculator -/

theorem searchFirst_sound (p : Nat → Bool) :
    ∀ fuel start n r, searchFirst p fuel start n = some r →
      p r = true ∧ start ≤ r ∧ r < start + n := by
  intro fuel
  induction fuel with
  | zero => intro start n r h; simp [searchFirst] at h
  | succ fuel ih =>
    intro start n r h
    rw [searchFirst] at h
    by_cases h0 : n = 0
    · rw [if_pos h0] at h; exact absurd h (by simp)
    · rw [if_neg h0] at h
      by_cases h1 : n = 1
      · rw [if_pos h1] at h
        by_cases hp : p start
        · rw [if_pos hp] at h
          obtain rfl : start = r := by simpa using h
          exact ⟨hp, Nat.le_refl _, by omega⟩
        · rw [if_neg hp] at h; exact absurd h (by simp)
      · rw [if_neg h1] at h
        rcases hL : searchFirst p fuel start (n / 2) with _ | u
        · rw [hL] at h
          obtain ⟨ha, hb, hc⟩ := ih _ _ _ h
          exact ⟨ha, by omega, by omega⟩
        · rw [hL] at h
          obtain rfl : u = r := by simpa using h
          obtain ⟨ha, hb, hc⟩ := ih _ _ _ hL
          exact ⟨ha, hb, by omega⟩

theorem findInDay_sound (e : CronExpr) (day base t : Nat)
    (h : findInDay e day base = some t) :
    base < t ∧ t / 1440 = day ∧ minuteInDayMatches e (t % 1440) = true := by
  unfold findInDay at h
  rcases hS : searchFirst (fun m => decide (base < 1440 * day + m) && minuteInDayMatches e m)
      15 0 1440 with _ | m
  · rw [hS] at h; exact absurd h (by simp)
  · rw [hS] at h
    obtain rfl : 1440 * day + m = t := by simpa using h
    obtain ⟨hp, -, hm⟩ := searchFirst_sound _ _ _ _ _ hS
    rw [Bool.and_eq_true, decide_eq_true_eq] at hp
    refine ⟨hp.1, ?_, ?_⟩
    · rw [Nat.mul_add_div (by norm_num)]
      omega
    · rw [Nat.mul_add_mod, Nat.mod_eq_of_lt (by omega)]
      exact hp.2

theorem croniterGetNext_sound (e : CronExpr) (base t : Nat)
    (h : croniterGetNext e base = some t) :
    base < t ∧ cronMatches e t = true := by
  unfold croniterGetNext at h
  rcases hD : searchFirst (fun day => dayMatches e day && (findInDay e day base).isSome) 20
      ((base + 1) / 1440) cronSearchHorizon with _ | day
  · rw [hD] at h; exact absurd h (by simp)
  · rw [hD] at h
    obtain ⟨hp, -, -⟩ := searchFirst_sound _ _ _ _ _ hD
    rw [Bool.and_eq_true] at hp
    obtain ⟨hlt, hdiv, hmin⟩ := findInDay_sound e day base t h
    refine ⟨hlt, ?_⟩
    unfold cronMatches
    rw [Bool.and_eq_true, hdiv]
    exact ⟨hp.1, hmin⟩

theorem pyTzNormalize_minutes (d : PyDatetime) : (pyTzNormalize d).minutes = d.minutes := by
  unfold pyTzNormalize
  split <;> rfl

theorem pyTzNormalize_aware (d : PyDatetime) : (pyTzNormalize d).aware = true := by
  unfold pyTzNormalize
  split
  · assumption
  · rfl

theorem calculate_next_due_ok_sound (cron : String) (e : CronExpr)
    (last_run : Option PyDatetime) (now t : PyDatetime)
    (hparse : parseCron cron = some e)
    (hok : calculate_next_due cron last_run now = .ok t) :
    t.aware = true ∧ (last_run.getD now).minutes < t.minutes ∧
      cronMatches e t.minutes = true := by
  unfold calculate_next_due at hok
  rw [hparse] at hok
  dsimp only at hok
  rcases hN : croniterGetNext e (pyTzNormalize (last_run.getD now)).minutes with _ | u
  · rw [hN] at hok; exact absurd hok (by simp)
  · rw [hN] at hok
    obtain rfl : pyTzNormalize { minutes := u, aware := (pyTzNormalize (last_run.getD now)).aware } = t := by
      simpa using hok
    obtain ⟨hlt, hmatch⟩ := croniterGetNext_sound e _ u hN
    rw [pyTzNormalize_minutes] at hlt
    refine ⟨pyTzNormalize_aware _, ?_, ?_⟩
    · rw [pyTzNormalize_minutes]
      exact hlt
    · rw [pyTzNormalize_minutes]
      exact hmatch

set_option maxRecDepth 10000

/-! ### Claims C3 and C9 (Cadence Calculator) -/

/-- C3 (amended): for every cadence expression accepted by the parser and every
reference time, when calculate_next_due returns a timestamp that timestamp is
timezone-aware, strictly greater than the reference time (the last-run anchor,
or now when no anchor exists), and satisfies the cadence expression.  The
unamended claim also asserted that a timestamp is always returned; accepted
expressions with an unsatisfiable date constraint refute that part, see the
counterexample below. -/
theorem nextDue_after_reference_and_matching (cron : String) (e : CronExpr)
    (last_run : Option PyDatetime) (now t : PyDatetime)
    (hparse : parseCron cron = some e)
    (hok : calculate_next_due cron last_run now = .ok t) :
    t.aware = true ∧ (last_run.getD now).minutes < t.minutes ∧
      cronMatches e t.minutes = true :=
  calculate_next_due_ok_sound cron e last_run now t hparse hok

/-- Witness for C3: the half-hourly cadence, anchored at minute 100, yields the
aware instant 120, which is strictly later and satisfies the expression. -/
theorem nextDue_after_reference_and_matching_witness :
    (PyDatetime.mk 120 true).aware = true ∧
      ((none : Option PyDatetime).getD (PyDatetime.mk 100 true)).minutes <
        (PyDatetime.mk 120 true).minutes ∧
      cronMatches
        { minute := CronField.values [0, 30], hour := CronField.star, dom := CronField.star,
          month := CronField.star, dow := CronField.star }
        (PyDatetime.mk 120 true).minutes = true :=
  nextDue_after_reference_and_matching "*/30 * * * *" _ none
    (PyDatetime.mk 100 true) (PyDatetime.mk 120 true) rfl rfl

/-- C3 counterexample: the expression for midnight on February 30th is accepted
by the parser, yet for reference time 0 the calculator produces no timestamp at
all — it fails with the bad-date error — refuting the claim that every
accepted expression and reference time yield a satisfying timestamp. -/
theorem nextDue_unsatisfiable_counterexample :
    (parseCron "0 0 30 2 *").isSome = true ∧
      calculate_next_due "0 0 30 2 *" none (PyDatetime.mk 0 true) =
        .error .croniterBadDate :=
  ⟨rfl, rfl⟩

/-- C9: the Cadence Calculator fails with the InvalidCadenceExpression error
exactly for the cadence expressions the parser rejects — for no parseable
expression is that error produced — and the failure is returned to the caller
rather than being silently replaced by a default cadence. -/
theorem invalid_cadence_surfaced (cron : String)
    (last_run : Option PyDatetime) (now : PyDatetime) :
    parseCron cron = none ↔
      calculate_next_due cron last_run now = .error .invalidCadenceExpression := by
  unfold calculate_next_due
  rcases hp : parseCron cron with _ | e
  · simp
  · dsimp only
    rcases hN : croniterGetNext e (pyTzNormalize (last_run.getD now)).minutes with _ | u
    · simp
    · simp

/-! ### Dedupe engine (app/nlp/dedupe.py) -/

/-- Embedding of dedupe.exact_match: case-insensitive trimmed equality. -/
def exact_match (a b : String) : Bool :=
  pyLower (pyStrip a) == pyLower (pyStrip b)

/-! ### Scoring engine (app/nlp/scoring.py)

Score values are Python floats but every value ever produced (0, 10, 20, 30,
40 and their sums) is an exact small integer, so they are embedded as Int. -/

def INSTITUTIONAL_ANCHORS : List String := ["caha_pdf", "guma", "artspace", "uog"]

def COMMUNITY_CHANNELS : List String := ["reddit", "events"]

def SOCIAL_CHANNELS : List String := ["instagram_stub", "tiktok_stub"]

/-- Embedding of scoring.score_candidate: the breakdown dict in its insertion
order (institutional, community, social, recency) and the total as the sum of
the breakdown values. -/
def score_candidate (candidate_channel : String) (metadata : List (String × PyVal)) :
    Int × List (String × Int) :=
  let institutional : Int :=
    if INSTITUTIONAL_ANCHORS.contains candidate_channel ||
        metaTruthy metadata "institutional_anchor" then 40 else 0
  let community : Int :=
    if COMMUNITY_CHANNELS.contains candidate_channel ||
        metaTruthy metadata "community_signal" then 30 else 0
  let social : Int :=
    if SOCIAL_CHANNELS.contains candidate_channel then 20 else 0
  let breakdown :=
    [("institutional", institutional), ("community", community),
     ("social", social), ("recency", (10 : Int))]
  ((breakdown.map Prod.snd).sum, breakdown)

/-! ### Claim C6 (Scoring engine) -/

/-- C6: for every channel and metadata dictionary, score_candidate returns a
breakdown over exactly the four categories
institutional/community/social/recency, with recency always 10 and the total
equal to the sum of the four category values; being a Lean function of its two
arguments it is pure and deterministic.  Moreover, when the metadata marks an
institutional-anchor signal on a channel that is not an institutional anchor,
the institutional component is 40 and the total is at least 50. -/
theorem score_candidate_breakdown (candidate_channel : String)
    (metadata : List (String × PyVal)) :
    ((score_candidate candidate_channel metadata).2.map Prod.fst =
        ["institutional", "community", "social", "recency"]) ∧
      (score_candidate candidate_channel metadata).2.lookup "recency" = some 10 ∧
      (score_candidate candidate_channel metadata).1 =
        ((score_candidate candidate_channel metadata).2.map Prod.snd).sum ∧
      (INSTITUTIONAL_ANCHORS.contains candidate_channel = false →
        metaTruthy metadata "institutional_anchor" = true →
        (score_candidate candidate_channel metadata).2.lookup "institutional" =
            some 40 ∧
          (score_candidate candidate_channel metadata).1 ≥ 50) := by
  refine ⟨rfl, by simp [score_candidate, List.lookup], rfl, ?_⟩
  intro hchan hmark
  unfold score_candidate
  rw [hchan, hmark]
  refine ⟨by simp [List.lookup], ?_⟩
  dsimp only
  split <;> split <;> split <;> simp_all

/-- Witness for C6: the conditional conjunct applied on the concrete channel
"forum" (not an institutional anchor) with a truthy institutional_anchor
metadata flag. -/
theorem score_candidate_breakdown_witness :
    (score_candidate "forum" [("institutional_anchor", PyVal.pyBool true)]).2.lookup
        "institutional" = some 40 ∧
      (score_candidate "forum" [("institutional_anchor", PyVal.pyBool true)]).1 ≥ 50 :=
  (score_candidate_breakdown "forum"
    [("institutional_anchor", PyVal.pyBool true)]).2.2.2 rfl rfl

/-! ### Data model (app/models/tables.py) and connector boundary
(app/connectors/base.py) -/

/-- Row of the source table. -/
structure SourceRow where
  id : Nat
  channel : String
  url : Option String
  kind : Option String
  fetched_at : PyDatetime
  content_hash : Option String
  raw_blob_ptr : Option String
  meta : List (String × PyVal)

/-- Row of the candidate table.  created_at/updated_at are represented by the
row's position in the table list (insertion order), which is how the recency
window reads them back. -/
structure CandidateRow where
  id : Nat
  source_id : Nat
  name : String
  channel : String
  evidence : String
  metadata : List (String × PyVal)
  status : String
  score : Int

/-- Row of the runs table. -/
structure RunRow where
  id : Nat
  connector : String
  started_at : PyDatetime
  finished_at : Option PyDatetime
  status : String
  item_count : Nat
  error_log : Option String
deriving DecidableEq, Repr

/-- Row of the schedules table (primary key: connector name). -/
structure ScheduleRow where
  connector : String
  cadence_cron : String
  last_run_at : Option PyDatetime
  next_due_at : Option PyDatetime
  enabled : Bool
deriving DecidableEq, Repr

/-- Row of the embeddings table as used by the dedupe-mark mechanism: the
vector column is always null, so only the (object_type, object_id) key is
kept. -/
structure EmbeddingRow where
  object_type : String
  object_id : Nat
deriving DecidableEq, Repr

/-- The database state visible to the core, plus the autoincrement counters. -/
structure DB where
  sources : List SourceRow := []
  candidates : List CandidateRow := []
  runs : List RunRow := []
  schedules : List ScheduleRow := []
  embeddings : List EmbeddingRow := []
  nextSourceId : Nat := 0
  nextCandidateId : Nat := 0
  nextRunId : Nat := 0

/-- The world the workers touch: the database, the held Redis lock keys and
the dispatched work queue (connector names, in dispatch order). -/
structure WorldState where
  db : DB := {}
  locks : List String := []
  queue : List String := []

/-- connectors/base.py SourcePayload. -/
structure SourcePayload where
  channel : String
  url : Option String := none
  kind : Option String := none
  fetched_at : PyDatetime
  content_hash : Option String := none
  raw_blob_ptr : Option String := none
  meta : List (String × PyVal) := []

/-- connectors/base.py Candidate (imported as CandidatePayload in tasks.py). -/
structure CandidatePayload where
  name : String
  evidence : String
  channel : String
  metadata : List (String × PyVal) := []

/-- A registered connector: its stable name, default cadence, and the fetch and
extract operations (which may raise). -/
structure Connector where
  name : String
  default_cadence : String
  fetch : Option PyDatetime → Except PyErr (List SourcePayload)
  extract : SourcePayload → Except PyErr (List CandidatePayload)

/-- ConnectorRegistry.get: dict lookup raising KeyError for unknown names.
The registry is the dict's entry list; registration keyed by connector name
keeps names unique. -/
def registryGet (registry : List Connector) (name : String) : Except PyErr Connector :=
  match registry.find? (fun c => c.name == name) with
  | none => .error (.keyError name)
  | some c => .ok c

/-! ### Run executor helpers (app/workers/tasks.py) -/

/-- tasks._hash_embedding_key: SHA-1 hex digest as an integer, reduced into
the 2^31 space; the digest itself is the oracle sha1. -/
def _hash_embedding_key (sha1 : String → Nat) (value : String) : Nat :=
  sha1 value % (2 ^ 31)

/-- tasks._payload_embedding_key: the stringified embedding_key metadata entry
if present and not None. -/
def _payload_embedding_key (meta : List (String × PyVal)) : Option String :=
  if meta.isEmpty then none
  else
    match metaGet meta "embedding_key" with
    | none => none
    | some .pyNone => none
    | some v => some (pyToStr v)

/-- tasks._embedding_duplicate: membership of the hashed key in the embeddings
table under the given namespace; scalar_one_or_none raises when several rows
match.  A falsy key (absent or empty) is never a duplicate. -/
def _embedding_duplicate (sha1 : String → Nat) (db : DB) (ns : String)
    (key : Option String) : Except PyErr Bool :=
  match key with
  | none => .ok false
  | some k =>
    if k == "" then .ok false
    else
      let hits := db.embeddings.filter
        (fun r => r.object_type == ns && r.object_id == _hash_embedding_key sha1 k)
      if hits.length > 1 then .error .multipleResultsFound
      else .ok (hits.length == 1)

/-- tasks._mark_embedding_key: record the hashed key in the embeddings table
(vector null) unless it is falsy or already present. -/
def _mark_embedding_key (sha1 : String → Nat) (db : DB) (ns : String)
    (key : Option String) : Except PyErr DB :=
  match key with
  | none => .ok db
  | some k =>
    if k == "" then .ok db
    else
      let hashed := _hash_embedding_key sha1 k
      let hits := db.embeddings.filter
        (fun r => r.object_type == ns && r.object_id == hashed)
      if hits.length > 1 then .error .multipleResultsFound
      else if hits.length == 1 then .ok db
      else .ok { db with embeddings := db.embeddings ++ [⟨ns, hashed⟩] }

/-- Stable insertion of a source row into a list sorted descending by
fetched_at (the ORDER BY fetched_at DESC read of the recency window). -/
def insertFetchedDesc (r : SourceRow) : List SourceRow → List SourceRow
  | [] => [r]
  | x :: xs =>
    if r.fetched_at.minutes ≤ x.fetched_at.minutes then x :: insertFetchedDesc r xs
    else r :: x :: xs

def sortFetchedDesc : List SourceRow → List SourceRow
  | [] => []
  | x :: xs => insertFetchedDesc x (sortFetchedDesc xs)

/-- tasks._is_duplicate_source: content-hash equality against all persisted
sources, then dedupe-token membership, then exact-url / fuzzy-title comparison
over the 25 most recently fetched sources of the same channel. -/
def _is_duplicate_source (fuzzy : String → String → Bool) (sha1 : String → Nat)
    (db : DB) (payload : SourcePayload) : Except PyErr Bool :=
  let hashHit : Except PyErr Bool :=
    match payload.content_hash with
    | none => .ok false
    | some h =>
      if h == "" then .ok false
      else
        let hits := db.sources.filter (fun s => s.content_hash == some h)
        if hits.length > 1 then .error .multipleResultsFound
        else .ok (hits.length == 1)
  match hashHit with
  | .error e => .error e
  | .ok true => .ok true
  | .ok false =>
    match _embedding_duplicate sha1 db "dedupe:source" (_payload_embedding_key payload.meta) with
    | .error e => .error e
    | .ok true => .ok true
    | .ok false =>
      let recent_sources :=
        (sortFetchedDesc (db.sources.filter (fun s => s.channel == payload.channel))).take 25
      .ok (recent_sources.any (fun existing =>
        (match payload.url, existing.url with
         | some pu, some eu => pu != "" && eu != "" && exact_match eu pu
         | _, _ => false) ||
        (match metaGet payload.meta "title", metaGet existing.meta "title" with
         | some t, some et =>
           t.truthy && et.truthy && fuzzy (pyToStr et) (pyToStr t)
         | _, _ => false)))

/-- tasks._is_duplicate_candidate: dedupe-token membership, then exact or
fuzzy name comparison over the 50 most recently created candidates of the same
channel (most recent first = reverse insertion order). -/
def _is_duplicate_candidate (fuzzy : String → String → Bool) (sha1 : String → Nat)
    (db : DB) (candidate : CandidatePayload) : Except PyErr Bool :=
  match _embedding_duplicate sha1 db "dedupe:candidate"
      (_payload_embedding_key candidate.metadata) with
  | .error e => .error e
  | .ok true => .ok true
  | .ok false =>
    let recent_candidates :=
      ((db.candidates.filter (fun c => c.channel == candidate.channel)).reverse).take 50
    .ok (recent_candidates.any (fun existing =>
      exact_match existing.name candidate.name || fuzzy existing.name candidate.name))

/-! ### Run executor pipeline (tasks.run_connector, lines 138-250)

The try-block of run_connector is decomposed into the per-candidate and
per-source steps of its two nested loops.  Each step returns the session state
after the step, the number of accepted items, and the exception that broke the
loop, if any — Python leaves the session changes made before an exception in
place, and the finally-block commits them. -/

/-- The candidate metadata persisted with the row: a copy of the raw metadata
with the score breakdown attached under score_breakdown. -/
def scoredMetadata (candidate : CandidatePayload) : List (String × PyVal) :=
  pyDictSet candidate.metadata "score_breakdown"
    (PyVal.pyDict ((score_candidate candidate.channel candidate.metadata).2.map
      (fun p => (p.1, PyVal.pyInt p.2))))

/-- session.add(CandidateModel(...)) followed by the autoincrement bump. -/
def dbAddCandidate (db : DB) (source_id : Nat) (candidate : CandidatePayload) : DB :=
  { db with
    candidates := db.candidates ++
      [{ id := db.nextCandidateId, source_id := source_id, name := candidate.name,
         channel := candidate.channel, evidence := candidate.evidence,
         metadata := scoredMetadata candidate, status := "pending",
         score := (score_candidate candidate.channel candidate.metadata).1 }],
    nextCandidateId := db.nextCandidateId + 1 }

/-- One iteration of the candidate loop: dedupe, score, attach the breakdown to
the metadata, persist the candidate, mark its dedupe token, count it. -/
def processCandidate (fuzzy : String → String → Bool) (sha1 : String → Nat)
    (db : DB) (source_id : Nat) (candidate : CandidatePayload) : DB × Nat × Option PyErr :=
  match _is_duplicate_candidate fuzzy sha1 db candidate with
  | .error e => (db, 0, some e)
  | .ok true => (db, 0, none)
  | .ok false =>
    match _mark_embedding_key sha1 (dbAddCandidate db source_id candidate) "dedupe:candidate"
        (_payload_embedding_key (scoredMetadata candidate)) with
    | .error e => (dbAddCandidate db source_id candidate, 0, some e)
    | .ok db2 => (db2, 1, none)

def processCandidates (fuzzy : String → String → Bool) (sha1 : String → Nat) :
    DB → Nat → List CandidatePayload → DB × Nat × Option PyErr
  | db, _, [] => (db, 0, none)
  | db, source_id, c :: rest =>
    match processCandidate fuzzy sha1 db source_id c with
    | (db1, k, some e) => (db1, k, some e)
    | (db1, k, none) =>
      match processCandidates fuzzy sha1 db1 source_id rest with
      | (db2, m, err) => (db2, k + m, err)

/-- session.add(Source(...)) followed by flush: the persisted source row (its
id is the current autoincrement value, which the candidates then reference). -/
def dbAddSource (db : DB) (payload : SourcePayload) : DB :=
  { db with
    sources := db.sources ++
      [{ id := db.nextSourceId, channel := payload.channel, url := payload.url,
         kind := payload.kind, fetched_at := payload.fetched_at,
         content_hash := payload.content_hash, raw_blob_ptr := payload.raw_blob_ptr,
         meta := payload.meta }],
    nextSourceId := db.nextSourceId + 1 }

/-- One iteration of the source loop: dedupe, persist the source, mark its
dedupe token, extract and process its candidates. -/
def processSource (fuzzy : String → String → Bool) (sha1 : String → Nat)
    (connector : Connector) (db : DB) (payload : SourcePayload) : DB × Nat × Option PyErr :=
  match _is_duplicate_source fuzzy sha1 db payload with
  | .error e => (db, 0, some e)
  | .ok true => (db, 0, none)
  | .ok false =>
    match _mark_embedding_key sha1 (dbAddSource db payload) "dedupe:source"
        (_payload_embedding_key payload.meta) with
    | .error e => (dbAddSource db payload, 0, some e)
    | .ok db2 =>
      match connector.extract payload with
      | .error e => (db2, 0, some e)
      | .ok candidates => processCandidates fuzzy sha1 db2 db.nextSourceId candidates

def processSources (fuzzy : String → String → Bool) (sha1 : String → Nat)
    (connector : Connector) : DB → List SourcePayload → DB × Nat × Option PyErr
  | db, [] => (db, 0, none)
  | db, payload :: rest =>
    match processSource fuzzy sha1 connector db payload with
    | (db1, k, some e) => (db1, k, some e)
    | (db1, k, none) =>
      match processSources fuzzy sha1 connector db1 rest with
      | (db2, m, err) => (db2, k + m, err)

/-- The try-block of run_connector: fetch, then the source loop. -/
def runBody (fuzzy : String → String → Bool) (sha1 : String → Nat)
    (connector : Connector) (since : Option PyDatetime) (db : DB) : DB × Nat × Option PyErr :=
  match connector.fetch since with
  | .error e => (db, 0, some e)
  | .ok sources => processSources fuzzy sha1 connector db sources

def lockKeyFor (name : String) : String := "connector:" ++ name ++ ":lock"

def runStatus : Option PyErr → String
  | none => "success"
  | some _ => "error"

/-- The Run row created at the start of execution (status running). -/
def runningRow (id : Nat) (name : String) (started : PyDatetime) : RunRow :=
  { id := id, connector := name, started_at := started, finished_at := none,
    status := "running", item_count := 0, error_log := none }

/-- The in-place mutations applied to the Run object by the except/finally
blocks: terminal status, accepted count on success, error detail (message plus
traceback) on failure, finish timestamp always. -/
def finishRunRow (r : RunRow) (tryErr : Option PyErr) (item_total : Nat)
    (finished : PyDatetime) : RunRow :=
  { r with
    status := runStatus tryErr,
    item_count := match tryErr with | none => item_total | some _ => r.item_count,
    error_log := match tryErr with
      | none => r.error_log
      | some e => some (pyErrStr e ++ "\nTraceback (most recent call last):"),
    finished_at := some finished }

def dbFinishRun (db : DB) (run_id : Nat) (tryErr : Option PyErr) (item_total : Nat)
    (finished : PyDatetime) : DB :=
  { db with runs := db.runs.map (fun r =>
      if r.id == run_id then finishRunRow r tryErr item_total finished else r) }

/-- The in-place schedule advance on success: last_run_at set to the run's
finish time, next_due_at to the cadence successor. -/
def advanceScheduleRow (s : ScheduleRow) (finished next_due : PyDatetime) : ScheduleRow :=
  { s with last_run_at := some finished, next_due_at := some next_due }

/-- The Schedule row created on success when none existed: default cadence,
finish-time stamps (enabled by column default). -/
def successSeedRow (connector : Connector) (connector_name : String)
    (finished next_due : PyDatetime) : ScheduleRow :=
  { connector := connector_name, cadence_cron := connector.default_cadence,
    last_run_at := some finished, next_due_at := some next_due, enabled := true }

/-- The Schedule row created on failure when none existed: default cadence and
null timestamps so future sweeps can still track the connector. -/
def failureSeedRow (connector : Connector) (connector_name : String) : ScheduleRow :=
  { connector := connector_name, cadence_cron := connector.default_cadence,
    last_run_at := none, next_due_at := none, enabled := true }

/-- The schedule-advancement tail of run_connector's finally-block
(tasks.py lines 218-246): on success set last_run_at to the finish time and
next_due_at to the cadence successor anchored there (creating the row if
absent); on failure leave an existing row untouched but create a null-stamped
row if none exists.  An invalid cadence makes calculate_next_due raise, which
this block does not catch. -/
def runFinally (connector : Connector) (connector_name : String) (finished : PyDatetime)
    (statusFinal : String) (db : DB) : Except PyErr DB :=
  let schedule := db.schedules.find? (fun s => s.connector == connector_name)
  if statusFinal == "success" then
    match calculate_next_due
        (match schedule with | some s => s.cadence_cron | none => connector.default_cadence)
        (some finished) finished with
    | .error e => .error e
    | .ok next_due =>
      match schedule with
      | some _ =>
        .ok { db with schedules := db.schedules.map (fun s =>
          if s.connector == connector_name then advanceScheduleRow s finished next_due
          else s) }
      | none =>
        .ok { db with schedules := db.schedules ++
          [successSeedRow connector connector_name finished next_due] }
  else
    match schedule with
    | some _ => .ok db
    | none =>
      .ok { db with schedules := db.schedules ++ [failureSeedRow connector connector_name] }

/-- The body of run_connector once the registry lookup has succeeded: create
the Run row, run the try-block, stamp the Run, advance (or not) the Schedule,
commit, and delete the lock key.  The commit happens inside the finally-block;
if the schedule advancement raises, nothing is committed (the session rolls
back to the pre-run database) and the lock key is not deleted. -/
def sinceOf (db : DB) (name : String) : Option PyDatetime :=
  (db.schedules.find? (fun s => s.connector == name)).bind (fun s => s.last_run_at)

/-- session.add(run) followed by flush: append the running Run row and advance
the autoincrement counter. -/
def dbStartRun (db : DB) (name : String) (started : PyDatetime) : DB :=
  { db with
    runs := db.runs ++ [runningRow db.nextRunId name started],
    nextRunId := db.nextRunId + 1 }

def run_connector_locked (fuzzy : String → String → Bool) (sha1 : String → Nat)
    (connector : Connector) (connector_name : String)
    (started_at finished_time : PyDatetime) (st : WorldState) :
    Except PyErr Unit × WorldState :=
  match runBody fuzzy sha1 connector (sinceOf st.db connector_name)
      (dbStartRun st.db connector_name started_at) with
  | (db2, item_total, tryErr) =>
    match runFinally connector connector_name finished_time (runStatus tryErr)
        (dbFinishRun db2 st.db.nextRunId tryErr item_total finished_time) with
    | .error e => (.error e, st)
    | .ok db3 =>
      (.ok (), { db := db3, locks := st.locks.erase (lockKeyFor connector_name),
                 queue := st.queue })

/-- Embedding of tasks.run_connector.  The two datetime.now(timezone.utc)
reads (start and finish of the run) are the parameters started_at and
finished_time; the Redis connection is the locks component of the world
state. -/
def run_connector (fuzzy : String → String → Bool) (sha1 : String → Nat)
    (registry : List Connector) (connector_name : String)
    (started_at finished_time : PyDatetime) (st : WorldState) :
    Except PyErr Unit × WorldState :=
  match registryGet registry connector_name with
  | .error e => (.error e, st)
  | .ok connector =>
    run_connector_locked fuzzy sha1 connector connector_name started_at finished_time st

/-! ### Scheduler sweep (app/workers/scheduler.py) -/

/-- The Schedule row created by the bootstrap step for a registered connector
lacking one: default cadence, enabled, null timestamps (column defaults). -/
def seedScheduleRow (conn : Connector) : ScheduleRow :=
  { connector := conn.name, cadence_cron := conn.default_cadence,
    last_run_at := none, next_due_at := none, enabled := true }

/-- scheduler._ensure_schedule_rows: for every registered connector lacking a
Schedule row, add one. -/
def _ensure_schedule_rows : List Connector → List ScheduleRow → List ScheduleRow
  | [], rows => rows
  | conn :: rest, rows =>
    match rows.find? (fun s => s.connector == conn.name) with
    | some _ => _ensure_schedule_rows rest rows
    | none => _ensure_schedule_rows rest (rows ++ [seedScheduleRow conn])

/-- scheduler._parse_priority_waves applied to the CONNECTOR_PRIORITY_WAVES
environment value: semicolon-separated waves of comma-separated names,
stripped, empty entries dropped. -/
def _parse_priority_waves (env : String) : List (List String) :=
  if pyStrip env == "" then []
  else
    (pySplitOn (pyStrip env) ';').filterMap (fun group =>
      let connectors := (pySplitOn group ',').filterMap (fun name =>
        if pyStrip name == "" then none else some (pyStrip name))
      if connectors.isEmpty then none else some connectors)

/-- dict.fromkeys over the due names: keep the first occurrence of each name,
in order. -/
def pyDictFromKeys : List String → List String
  | [] => []
  | x :: xs => x :: (pyDictFromKeys xs).filter (fun y => y != x)

/-- One pass of the append-if-pending loop shared by the wave loop and the
final loop of _order_due_connectors: append each scanned name that is still in
the pending set and remove it from the set. -/
def takePending : List String → List String → List String → List String × List String
  | [], ordered, pset => (ordered, pset)
  | n :: rest, ordered, pset =>
    if pset.contains n then takePending rest (ordered ++ [n]) (pset.erase n)
    else takePending rest ordered pset

def takeWaves : List (List String) → List String → List String → List String × List String
  | [], ordered, pset => (ordered, pset)
  | w :: ws, ordered, pset =>
    match takePending w ordered pset with
    | (o1, p1) => takeWaves ws o1 p1

/-- scheduler._order_due_connectors: wave members first (in wave order), then
the remaining due names in their original order. -/
def _order_due_connectors (env : String) (names : List String) : List String :=
  let pending := pyDictFromKeys names
  if pending.isEmpty then []
  else
    match takeWaves (_parse_priority_waves env) [] pending with
    | (o1, p1) => (takePending pending o1 p1).1

/-- scheduler._compute_due_at: next_due_at if set, else the cadence successor
of last_run_at (cadence_cron, or the connector default when empty), else
immediately due. -/
def _compute_due_at (schedule : ScheduleRow) (now : PyDatetime)
    (connector_default : String) : Except PyErr PyDatetime :=
  match schedule.next_due_at with
  | some d => .ok d
  | none =>
    match schedule.last_run_at with
    | some lr =>
      calculate_next_due
        (if schedule.cadence_cron == "" then connector_default else schedule.cadence_cron)
        (some lr) now
    | none => .ok now

/-- python dict insert with replace-in-place semantics for the due map. -/
def pyDictInsertDue (m : List (String × ScheduleRow × Connector)) (k : String)
    (v : ScheduleRow × Connector) : List (String × ScheduleRow × Connector) :=
  if m.any (fun p => p.1 == k) then m.map (fun p => if p.1 == k then (k, v) else p)
  else m ++ [(k, v)]

/-- The due-collection loop of enqueue_due_jobs: for each enabled schedule,
skip unregistered connectors (the caught KeyError), compute the due time
(which may raise for a bad cadence), and collect the due ones in a dict. -/
def computeDueMap (registry : List Connector) (now : PyDatetime) :
    List ScheduleRow → List (String × ScheduleRow × Connector) →
      Except PyErr (List (String × ScheduleRow × Connector))
  | [], acc => .ok acc
  | s :: rest, acc =>
    match registry.find? (fun c => c.name == s.connector) with
    | none => computeDueMap registry now rest acc
    | some conn =>
      match _compute_due_at s now conn.default_cadence with
      | .error e => .error e
      | .ok due_at =>
        computeDueMap registry now rest
          (if due_at.minutes ≤ now.minutes then pyDictInsertDue acc s.connector (s, conn)
           else acc)

/-- The dispatch loop of enqueue_due_jobs: in priority order, set-if-absent on
the lock key (skip when held) and enqueue the run job.  Redis and queue
effects are not transactional, so they are returned even when the loop raises
(the unreachable dict-lookup KeyError). -/
def dispatchLoop (dueMap : List (String × ScheduleRow × Connector)) :
    List String → List String → List String → List String × List String × Option PyErr
  | [], locks, queue => (locks, queue, none)
  | name :: rest, locks, queue =>
    match dueMap.find? (fun p => p.1 == name) with
    | none => (locks, queue, some (.keyError name))
    | some p =>
      if locks.contains (lockKeyFor name) then dispatchLoop dueMap rest locks queue
      else dispatchLoop dueMap rest (locks ++ [lockKeyFor name]) (queue ++ [p.2.2.name])

/-- Embedding of scheduler.enqueue_due_jobs: bootstrap missing Schedule rows,
collect the due enabled connectors, dispatch them in priority-wave order under
the per-connector lock, then commit.  A cadence error while computing due
times aborts the sweep before any lock or queue effect and rolls the session
back; a dispatch-loop error rolls the session back but keeps the
non-transactional lock/queue effects. -/
def enqueue_due_jobs (env : String) (registry : List Connector) (now : PyDatetime)
    (st : WorldState) : Except PyErr Unit × WorldState :=
  let schedules1 := _ensure_schedule_rows registry st.db.schedules
  match computeDueMap registry now (schedules1.filter (fun s => s.enabled)) [] with
  | .error e => (.error e, st)
  | .ok dueMap =>
    match dispatchLoop dueMap (_order_due_connectors env (dueMap.map (fun p => p.1)))
        st.locks st.queue with
    | (locks1, queue1, some e) =>
      (.error e, { db := st.db, locks := locks1, queue := queue1 })
    | (locks1, queue1, none) =>
      (.ok (), { db := { st.db with schedules := schedules1 },
                 locks := locks1, queue := queue1 })

/-! ### Claim C10 (unregistered connector names) -/

/-- C10: for a connector name absent from the Registry, run_connector raises
the KeyError from the initial registry lookup and the world is untouched — no
Run row is created, no Schedule or lock state changes, and the connector's
lock key is not deleted. -/
theorem run_connector_unregistered_keyerror (fuzzy : String → String → Bool)
    (sha1 : String → Nat) (registry : List Connector) (connector_name : String)
    (started finished : PyDatetime) (st : WorldState)
    (habs : registry.find? (fun c => c.name == connector_name) = none) :
    run_connector fuzzy sha1 registry connector_name started finished st =
      (.error (.keyError connector_name), st) := by
  unfold run_connector registryGet
  rw [habs]

/-- Witness for C10 on an empty registry: the call returns the KeyError and
leaves the held lock key in place. -/
theorem run_connector_unregistered_keyerror_witness :
    run_connector (fun _ _ => false) (fun _ => 0) [] "phantom" (PyDatetime.mk 1 true)
        (PyDatetime.mk 2 true)
        { db := {}, locks := ["connector:phantom:lock"], queue := [] } =
      (.error (.keyError "phantom"),
        { db := {}, locks := ["connector:phantom:lock"], queue := [] }) :=
  run_connector_unregistered_keyerror (fun _ _ => false) (fun _ => 0) [] "phantom"
    (PyDatetime.mk 1 true) (PyDatetime.mk 2 true)
    { db := {}, locks := ["connector:phantom:lock"], queue := [] } rfl

/-! ### Claim C5 (content-hash source dedupe) -/

theorem is_duplicate_source_of_hash (fuzzy : String → String → Bool)
    (sha1 : String → Nat) (db : DB) (payload : SourcePayload) (h : String)
    (hhash : payload.content_hash = some h) (hne : (h == "") = false)
    (hone : (db.sources.filter (fun s => s.content_hash == some h)).length = 1) :
    _is_duplicate_source fuzzy sha1 db payload = .ok true := by
  unfold _is_duplicate_source
  rw [hhash]
  simp only [hne, hone]
  norm_num

/-- C5: a fetched raw source whose content hash equals that of the (unique)
already-persisted Source with that hash is skipped entirely: the source-loop
step leaves the database unchanged, accepts zero items and raises nothing, and
the whole source loop behaves as if the payload were absent — so it
contributes no Source row, no candidates, and nothing to the accepted-item
count. -/
theorem duplicate_content_hash_source_skipped (fuzzy : String → String → Bool)
    (sha1 : String → Nat) (connector : Connector) (db : DB) (payload : SourcePayload)
    (h : String) (rest : List SourcePayload)
    (hhash : payload.content_hash = some h) (hne : (h == "") = false)
    (hone : (db.sources.filter (fun s => s.content_hash == some h)).length = 1) :
    processSource fuzzy sha1 connector db payload = (db, 0, none) ∧
      processSources fuzzy sha1 connector db (payload :: rest) =
        processSources fuzzy sha1 connector db rest := by
  have hdup := is_duplicate_source_of_hash fuzzy sha1 db payload h hhash hne hone
  have hstep : processSource fuzzy sha1 connector db payload = (db, 0, none) := by
    unfold processSource
    rw [hdup]
  refine ⟨hstep, ?_⟩
  rw [processSources, hstep]
  rcases hrest : processSources fuzzy sha1 connector db rest with ⟨db2, m, err⟩
  simp [hrest]

/-- Concrete fixtures shared by the witnesses below. -/
def fzFalse : String → String → Bool := fun _ _ => false

def sha1Zero : String → Nat := fun _ => 0

def stubConnector : Connector :=
  { name := "stub",
    default_cadence := "*/30 * * * *",
    fetch := fun _ => Except.ok [],
    extract := fun _ => Except.ok [] }

def dupSourceRow : SourceRow :=
  { id := 7,
    channel := "stub",
    url := some "http://old",
    kind := none,
    fetched_at := PyDatetime.mk 10 true,
    content_hash := some "dup",
    raw_blob_ptr := none,
    meta := [] }

def dupDB : DB := { sources := [dupSourceRow], nextSourceId := 8 }

def dupPayload : SourcePayload :=
  { channel := "stub",
    url := some "http://x/1",
    fetched_at := PyDatetime.mk 90 true,
    content_hash := some "dup" }

/-- Witness for C5: a payload with content hash "dup" against a database
already holding exactly one source with hash "dup". -/
theorem duplicate_content_hash_source_skipped_witness :
    processSource fzFalse sha1Zero stubConnector dupDB dupPayload = (dupDB, 0, none) :=
  (duplicate_content_hash_source_skipped fzFalse sha1Zero stubConnector dupDB dupPayload
    "dup" [] rfl rfl rfl).1

/-! ### Frame lemmas: the try-block never touches runs, schedules or the run
counter, and the finally-block never touches anything but schedules -/

theorem mark_embedding_frame (sha1 : String → Nat) (db : DB) (ns : String)
    (key : Option String) (db2 : DB) (h : _mark_embedding_key sha1 db ns key = .ok db2) :
    db2.schedules = db.schedules ∧ db2.runs = db.runs ∧ db2.nextRunId = db.nextRunId := by
  unfold _mark_embedding_key at h
  rcases key with _ | k
  · obtain rfl : db = db2 := by simpa using h
    exact ⟨rfl, rfl, rfl⟩
  · dsimp only at h
    split_ifs at h with h1 h2 h3 <;>
      (injection h with h2; subst h2; exact ⟨rfl, rfl, rfl⟩)

theorem processCandidate_frame (fuzzy : String → String → Bool) (sha1 : String → Nat)
    (db : DB) (sid : Nat) (c : CandidatePayload) :
    ((processCandidate fuzzy sha1 db sid c).1.schedules = db.schedules) ∧
      ((processCandidate fuzzy sha1 db sid c).1.runs = db.runs) ∧
      ((processCandidate fuzzy sha1 db sid c).1.nextRunId = db.nextRunId) := by
  unfold processCandidate
  rcases _is_duplicate_candidate fuzzy sha1 db c with e | b
  · exact ⟨rfl, rfl, rfl⟩
  · rcases b with _ | _
    · rcases hm : _mark_embedding_key sha1 (dbAddCandidate db sid c) "dedupe:candidate"
          (_payload_embedding_key (scoredMetadata c)) with e2 | db2
      · exact ⟨rfl, rfl, rfl⟩
      · exact mark_embedding_frame sha1 (dbAddCandidate db sid c) _ _ db2 hm
    · exact ⟨rfl, rfl, rfl⟩

theorem processCandidates_frame (fuzzy : String → String → Bool) (sha1 : String → Nat)
    (l : List CandidatePayload) :
    ∀ (db : DB) (sid : Nat),
      ((processCandidates fuzzy sha1 db sid l).1.schedules = db.schedules) ∧
        ((processCandidates fuzzy sha1 db sid l).1.runs = db.runs) ∧
        ((processCandidates fuzzy sha1 db sid l).1.nextRunId = db.nextRunId) := by
  induction l with
  | nil => intro db sid; exact ⟨rfl, rfl, rfl⟩
  | cons c rest ih =>
    intro db sid
    obtain ⟨hs1, hr1, hn1⟩ := processCandidate_frame fuzzy sha1 db sid c
    rw [processCandidates]
    rcases hc : processCandidate fuzzy sha1 db sid c with ⟨db1, k, err⟩
    rw [hc] at hs1 hr1 hn1
    rcases err with _ | e
    · obtain ⟨hs2, hr2, hn2⟩ := ih db1 sid
      rcases hrest : processCandidates fuzzy sha1 db1 sid rest with ⟨db2, m, err2⟩
      rw [hrest] at hs2 hr2 hn2
      dsimp only
      try rw [hrest]
      exact ⟨hs2.trans hs1, hr2.trans hr1, hn2.trans hn1⟩
    · exact ⟨hs1, hr1, hn1⟩

theorem processSource_frame (fuzzy : String → String → Bool) (sha1 : String → Nat)
    (connector : Connector) (db : DB) (p : SourcePayload) :
    ((processSource fuzzy sha1 connector db p).1.schedules = db.schedules) ∧
      ((processSource fuzzy sha1 connector db p).1.runs = db.runs) ∧
      ((processSource fuzzy sha1 connector db p).1.nextRunId = db.nextRunId) := by
  unfold processSource
  rcases _is_duplicate_source fuzzy sha1 db p with e | b
  · exact ⟨rfl, rfl, rfl⟩
  · rcases b with _ | _
    · rcases hm : _mark_embedding_key sha1 (dbAddSource db p) "dedupe:source"
          (_payload_embedding_key p.meta) with e2 | db2
      · exact ⟨rfl, rfl, rfl⟩
      · obtain ⟨hs1, hr1, hn1⟩ := mark_embedding_frame sha1 (dbAddSource db p) _ _ db2 hm
        rcases connector.extract p with e3 | cands
        · exact ⟨hs1, hr1, hn1⟩
        · obtain ⟨hs2, hr2, hn2⟩ := processCandidates_frame fuzzy sha1 cands db2 db.nextSourceId
          exact ⟨hs2.trans hs1, hr2.trans hr1, hn2.trans hn1⟩
    · exact ⟨rfl, rfl, rfl⟩

theorem processSources_frame (fuzzy : String → String → Bool) (sha1 : String → Nat)
    (connector : Connector) (l : List SourcePayload) :
    ∀ db : DB,
      ((processSources fuzzy sha1 connector db l).1.schedules = db.schedules) ∧
        ((processSources fuzzy sha1 connector db l).1.runs = db.runs) ∧
        ((processSources fuzzy sha1 connector db l).1.nextRunId = db.nextRunId) := by
  induction l with
  | nil => intro db; exact ⟨rfl, rfl, rfl⟩
  | cons p rest ih =>
    intro db
    obtain ⟨hs1, hr1, hn1⟩ := processSource_frame fuzzy sha1 connector db p
    rw [processSources]
    rcases hp : processSource fuzzy sha1 connector db p with ⟨db1, k, err⟩
    rw [hp] at hs1 hr1 hn1
    rcases err with _ | e
    · obtain ⟨hs2, hr2, hn2⟩ := ih db1
      rcases hrest : processSources fuzzy sha1 connector db1 rest with ⟨db2, m, err2⟩
      rw [hrest] at hs2 hr2 hn2
      dsimp only
      try rw [hrest]
      exact ⟨hs2.trans hs1, hr2.trans hr1, hn2.trans hn1⟩
    · exact ⟨hs1, hr1, hn1⟩

theorem runBody_frame (fuzzy : String → String → Bool) (sha1 : String → Nat)
    (connector : Connector) (since : Option PyDatetime) (db : DB) :
    ((runBody fuzzy sha1 connector since db).1.schedules = db.schedules) ∧
      ((runBody fuzzy sha1 connector since db).1.runs = db.runs) ∧
      ((runBody fuzzy sha1 connector since db).1.nextRunId = db.nextRunId) := by
  unfold runBody
  rcases connector.fetch since with e | sources
  · exact ⟨rfl, rfl, rfl⟩
  · exact processSources_frame fuzzy sha1 connector sources db

theorem dbStartRun_schedules (db : DB) (n : String) (s : PyDatetime) :
    (dbStartRun db n s).schedules = db.schedules := rfl

theorem dbStartRun_runs (db : DB) (n : String) (s : PyDatetime) :
    (dbStartRun db n s).runs = db.runs ++ [runningRow db.nextRunId n s] := rfl

theorem dbFinishRun_schedules (db : DB) (rid : Nat) (e : Option PyErr) (t : Nat)
    (f : PyDatetime) : (dbFinishRun db rid e t f).schedules = db.schedules := rfl

theorem dbFinishRun_runs (db : DB) (rid : Nat) (e : Option PyErr) (t : Nat) (f : PyDatetime) :
    (dbFinishRun db rid e t f).runs =
      db.runs.map (fun r => if r.id == rid then finishRunRow r e t f else r) := rfl

/-- Stamping the freshly appended Run row touches no pre-existing row when the
run id is fresh. -/
theorem map_finish_of_fresh (rid : Nat) (tryErr : Option PyErr) (total : Nat)
    (finished : PyDatetime) :
    ∀ runs : List RunRow, (∀ r ∈ runs, r.id ≠ rid) →
      runs.map (fun r => if r.id == rid then finishRunRow r tryErr total finished else r) =
        runs := by
  intro runs
  induction runs with
  | nil => intro _; rfl
  | cons a as ih =>
    intro hfresh
    simp only [List.map_cons]
    rw [if_neg (by simpa using hfresh a (by simp)),
      ih (fun r hr => hfresh r (by simp [hr]))]

theorem map_finish_append_fresh (runs : List RunRow) (rid : Nat) (tryErr : Option PyErr)
    (total : Nat) (finished : PyDatetime) (r0 : RunRow)
    (hfresh : ∀ r ∈ runs, r.id ≠ rid) (h0 : r0.id = rid) :
    (runs ++ [r0]).map (fun r => if r.id == rid then finishRunRow r tryErr total finished else r)
      = runs ++ [finishRunRow r0 tryErr total finished] := by
  rw [List.map_append, map_finish_of_fresh rid tryErr total finished runs hfresh]
  simp [h0]

/-- Characterization of the finally-block on a successful run. -/
theorem runFinally_success_spec (connector : Connector) (name : String)
    (finished : PyDatetime) (db db3 : DB)
    (h : runFinally connector name finished "success" db = .ok db3) :
    db3.runs = db.runs ∧
      (match db.schedules.find? (fun s => s.connector == name) with
       | some s0 => ∃ t, calculate_next_due s0.cadence_cron (some finished) finished = .ok t ∧
           db3.schedules = db.schedules.map (fun s =>
             if s.connector == name then advanceScheduleRow s finished t else s)
       | none => ∃ t,
           calculate_next_due connector.default_cadence (some finished) finished = .ok t ∧
           db3.schedules = db.schedules ++ [successSeedRow connector name finished t]) := by
  unfold runFinally at h
  rw [if_pos (show (("success" == "success") = true) from rfl)] at h
  rcases hS : db.schedules.find? (fun s => s.connector == name) with _ | s0 <;> rw [hS] at h ⊢
  · rcases hC : calculate_next_due connector.default_cadence (some finished) finished
        with e | t <;> rw [hC] at h
    · exact absurd h (by simp)
    · injection h with h2
      subst h2
      exact ⟨rfl, ⟨t, by simp [hC], rfl⟩⟩
  · rcases hC : calculate_next_due s0.cadence_cron (some finished) finished
        with e | t <;> rw [hC] at h
    · exact absurd h (by simp)
    · injection h with h2
      subst h2
      exact ⟨rfl, ⟨t, by simp [hC], rfl⟩⟩

/-- Characterization of the finally-block on a failed run: always succeeds,
leaving an existing Schedule row untouched and creating the null-stamped row
when none exists. -/
theorem runFinally_error_spec (connector : Connector) (name : String)
    (finished : PyDatetime) (db : DB) :
    runFinally connector name finished "error" db =
      .ok (match db.schedules.find? (fun s => s.connector == name) with
           | some _ => db
           | none =>
             { db with schedules := db.schedules ++ [failureSeedRow connector name] }) := by
  unfold runFinally
  rw [if_neg (show ¬(("error" == "success") = true) from by decide)]
  rcases hS : db.schedules.find? (fun s => s.connector == name) with _ | s0 <;> rw [hS]

/-! ### Claim C2 (schedule advancement by the Run Executor) -/

/-- C2: for every executed run (a run_connector invocation on a registered
connector that returns normally, against a database whose run ids are below
the autoincrement counter), exactly one Run row is appended, stamped with the
run's finish time.  If that run completed successfully, the Schedule ends with
last_run_at equal to the finish time and next_due_at the cadence-computed
successor anchored at the finish time — updating the existing row, or creating
one when absent.  If the run failed, an existing Schedule keeps its pre-run
last_run_at/next_due_at untouched, and when no Schedule row existed one is
created with both timestamps null. -/
theorem run_connector_schedule_advancement (fuzzy : String → String → Bool)
    (sha1 : String → Nat) (registry : List Connector) (connector_name : String)
    (conn : Connector) (started finished : PyDatetime) (st : WorldState)
    (hreg : registryGet registry connector_name = .ok conn)
    (hfresh : ∀ r ∈ st.db.runs, r.id ≠ st.db.nextRunId)
    (hok : (run_connector fuzzy sha1 registry connector_name started finished st).1 = .ok ()) :
    ∃ r : RunRow,
      (run_connector fuzzy sha1 registry connector_name started finished st).2.db.runs =
          st.db.runs ++ [r] ∧
        r.finished_at = some finished ∧
        (r.status = "success" ∨ r.status = "error") ∧
        (r.status = "success" →
          match st.db.schedules.find? (fun s => s.connector == connector_name) with
          | some s0 => ∃ t,
              calculate_next_due s0.cadence_cron (some finished) finished = .ok t ∧
              (run_connector fuzzy sha1 registry connector_name started finished
                  st).2.db.schedules =
                st.db.schedules.map (fun s =>
                  if s.connector == connector_name then advanceScheduleRow s finished t else s)
          | none => ∃ t,
              calculate_next_due conn.default_cadence (some finished) finished = .ok t ∧
              (run_connector fuzzy sha1 registry connector_name started finished
                  st).2.db.schedules =
                st.db.schedules ++ [successSeedRow conn connector_name finished t]) ∧
        (r.status = "error" →
          match st.db.schedules.find? (fun s => s.connector == connector_name) with
          | some _ =>
              (run_connector fuzzy sha1 registry connector_name started finished
                  st).2.db.schedules = st.db.schedules
          | none =>
              (run_connector fuzzy sha1 registry connector_name started finished
                  st).2.db.schedules =
                st.db.schedules ++ [failureSeedRow conn connector_name]) := by
  unfold run_connector at hok ⊢
  rw [hreg] at hok ⊢
  dsimp only at hok ⊢
  unfold run_connector_locked at hok ⊢
  obtain ⟨hbs, hbr, hbn⟩ := runBody_frame fuzzy sha1 conn (sinceOf st.db connector_name)
    (dbStartRun st.db connector_name started)
  rcases hB : runBody fuzzy sha1 conn (sinceOf st.db connector_name)
      (dbStartRun st.db connector_name started) with ⟨db2, total, tryErr⟩
  rw [hB] at hok hbs hbr hbn
  dsimp only at hok hbs hbr hbn ⊢
  rw [dbStartRun_schedules] at hbs
  rw [dbStartRun_runs] at hbr
  have hsch2 : (dbFinishRun db2 st.db.nextRunId tryErr total finished).schedules =
      st.db.schedules := by rw [dbFinishRun_schedules, hbs]
  rcases tryErr with _ | e
  · rcases hF : runFinally conn connector_name finished (runStatus none)
        (dbFinishRun db2 st.db.nextRunId none total finished) with e2 | db3
    · simp [hF] at hok
    · obtain ⟨hfr, hfs⟩ := runFinally_success_spec conn connector_name finished _ db3 hF
      rw [hsch2] at hfs
      try rw [hF] at hok ⊢
      refine ⟨finishRunRow (runningRow st.db.nextRunId connector_name started) none total
        finished, ?_, rfl, Or.inl rfl, fun _ => hfs,
        fun habs => by simp [finishRunRow, runStatus] at habs⟩
      dsimp only
      rw [hfr, dbFinishRun_runs, hbr,
        map_finish_append_fresh st.db.runs st.db.nextRunId none total finished _ hfresh rfl]
  · dsimp only [runStatus] at hok ⊢
    rw [runFinally_error_spec conn connector_name finished
      (dbFinishRun db2 st.db.nextRunId (some e) total finished), hsch2]
    rcases hS : st.db.schedules.find? (fun s => s.connector == connector_name) with _ | s0
    · rw [hS]
      dsimp only
      refine ⟨finishRunRow (runningRow st.db.nextRunId connector_name started) (some e) total
        finished, ?_, rfl, Or.inr rfl,
        fun habs => by simp [finishRunRow, runStatus] at habs, fun _ => rfl⟩
      rw [dbFinishRun_runs, hbr,
        map_finish_append_fresh st.db.runs st.db.nextRunId (some e) total finished _ hfresh
          rfl]
    · rw [hS]
      dsimp only
      refine ⟨finishRunRow (runningRow st.db.nextRunId connector_name started) (some e) total
        finished, ?_, rfl, Or.inr rfl,
        fun habs => by simp [finishRunRow, runStatus] at habs, fun _ => hsch2⟩
      rw [dbFinishRun_runs, hbr,
        map_finish_append_fresh st.db.runs st.db.nextRunId (some e) total finished _ hfresh
          rfl]

def stubWorld : WorldState := { db := {}, locks := ["connector:stub:lock"], queue := [] }

/-- Witness for C2: a successful run of the stub connector against an empty
database appends one Run row and creates the Schedule row stamped with the
finish time and its cadence successor. -/
theorem run_connector_schedule_advancement_witness :
    ∃ r : RunRow,
      (run_connector fzFalse sha1Zero [stubConnector] "stub" (PyDatetime.mk 100 true)
          (PyDatetime.mk 105 true) stubWorld).2.db.runs = stubWorld.db.runs ++ [r] ∧
        r.finished_at = some (PyDatetime.mk 105 true) ∧
        (r.status = "success" ∨ r.status = "error") ∧
        (r.status = "success" →
          match stubWorld.db.schedules.find? (fun s => s.connector == "stub") with
          | some s0 => ∃ t,
              calculate_next_due s0.cadence_cron (some (PyDatetime.mk 105 true))
                  (PyDatetime.mk 105 true) = .ok t ∧
              (run_connector fzFalse sha1Zero [stubConnector] "stub" (PyDatetime.mk 100 true)
                  (PyDatetime.mk 105 true) stubWorld).2.db.schedules =
                stubWorld.db.schedules.map (fun s =>
                  if s.connector == "stub" then
                    advanceScheduleRow s (PyDatetime.mk 105 true) t
                  else s)
          | none => ∃ t,
              calculate_next_due stubConnector.default_cadence (some (PyDatetime.mk 105 true))
                  (PyDatetime.mk 105 true) = .ok t ∧
              (run_connector fzFalse sha1Zero [stubConnector] "stub" (PyDatetime.mk 100 true)
                  (PyDatetime.mk 105 true) stubWorld).2.db.schedules =
                stubWorld.db.schedules ++
                  [successSeedRow stubConnector "stub" (PyDatetime.mk 105 true) t]) ∧
        (r.status = "error" →
          match stubWorld.db.schedules.find? (fun s => s.connector == "stub") with
          | some _ =>
              (run_connector fzFalse sha1Zero [stubConnector] "stub" (PyDatetime.mk 100 true)
                  (PyDatetime.mk 105 true) stubWorld).2.db.schedules = stubWorld.db.schedules
          | none =>
              (run_connector fzFalse sha1Zero [stubConnector] "stub" (PyDatetime.mk 100 true)
                  (PyDatetime.mk 105 true) stubWorld).2.db.schedules =
                stubWorld.db.schedules ++ [failureSeedRow stubConnector "stub"]) :=
  run_connector_schedule_advancement fzFalse sha1Zero [stubConnector] "stub" stubConnector
    (PyDatetime.mk 100 true) (PyDatetime.mk 105 true) stubWorld rfl (by simp [stubWorld]) rfl

/-! ### Claim C1 (lock release and exception containment) -/

theorem runFinally_success_ok (connector : Connector) (name : String)
    (finished : PyDatetime) (db : DB) (t : PyDatetime)
    (hcad : calculate_next_due
        (match db.schedules.find? (fun s => s.connector == name) with
         | some s => s.cadence_cron
         | none => connector.default_cadence) (some finished) finished = .ok t) :
    ∃ db3, runFinally connector name finished "success" db = .ok db3 := by
  unfold runFinally
  rw [if_pos (show (("success" == "success") = true) from rfl)]
  rcases hS : db.schedules.find? (fun s => s.connector == name) with _ | s0 <;>
    rw [hS] at hcad <;> rw [hS] <;> dsimp only at hcad ⊢ <;> rw [hcad] <;> exact ⟨_, rfl⟩

/-- C1 (amended): for every dispatched job whose connector name is registered
and whose effective cadence expression (the stored Schedule row's, or the
connector default when no row exists) yields a next-due time, run_connector
lets no exception propagate — it returns normally — and deletes the
connector's lock key as its final step; every exception raised during fetch,
extract or persistence is caught and recorded on the appended Run row (status
error with a populated error log).  The unamended claim also covered
unregistered names; the counterexample below refutes that: there the KeyError
from the registry lookup propagates and the lock key is never deleted. -/
theorem run_connector_releases_lock (fuzzy : String → String → Bool)
    (sha1 : String → Nat) (registry : List Connector) (connector_name : String)
    (conn : Connector) (started finished : PyDatetime) (st : WorldState)
    (hreg : registryGet registry connector_name = .ok conn)
    (hfresh : ∀ r ∈ st.db.runs, r.id ≠ st.db.nextRunId)
    (hcad : ∃ t, calculate_next_due
        (match st.db.schedules.find? (fun s => s.connector == connector_name) with
         | some s => s.cadence_cron
         | none => conn.default_cadence) (some finished) finished = .ok t) :
    (run_connector fuzzy sha1 registry connector_name started finished st).1 = .ok () ∧
      (run_connector fuzzy sha1 registry connector_name started finished st).2.locks =
        st.locks.erase (lockKeyFor connector_name) ∧
      ∃ r : RunRow,
        (run_connector fuzzy sha1 registry connector_name started finished st).2.db.runs =
            st.db.runs ++ [r] ∧
          r.finished_at = some finished ∧
          (r.status = "success" ∨ (r.status = "error" ∧ r.error_log.isSome = true)) := by
  unfold run_connector
  rw [hreg]
  dsimp only
  unfold run_connector_locked
  obtain ⟨hbs, hbr, hbn⟩ := runBody_frame fuzzy sha1 conn (sinceOf st.db connector_name)
    (dbStartRun st.db connector_name started)
  rcases hB : runBody fuzzy sha1 conn (sinceOf st.db connector_name)
      (dbStartRun st.db connector_name started) with ⟨db2, total, tryErr⟩
  rw [hB] at hbs hbr hbn
  dsimp only at hbs hbr hbn ⊢
  rw [dbStartRun_schedules] at hbs
  rw [dbStartRun_runs] at hbr
  have hsch2 : (dbFinishRun db2 st.db.nextRunId tryErr total finished).schedules =
      st.db.schedules := by rw [dbFinishRun_schedules, hbs]
  rcases tryErr with _ | e
  · rcases hcad with ⟨t, ht⟩
    obtain ⟨db3, hF⟩ := runFinally_success_ok conn connector_name finished
      (dbFinishRun db2 st.db.nextRunId none total finished) t (by rw [hsch2]; exact ht)
    dsimp only [runStatus]
    rw [hF]
    obtain ⟨hfr, -⟩ := runFinally_success_spec conn connector_name finished _ db3 hF
    refine ⟨rfl, rfl, finishRunRow (runningRow st.db.nextRunId connector_name started) none
      total finished, ?_, rfl, Or.inl rfl⟩
    dsimp only
    rw [hfr, dbFinishRun_runs, hbr,
      map_finish_append_fresh st.db.runs st.db.nextRunId none total finished _ hfresh rfl]
  · dsimp only [runStatus]
    rw [runFinally_error_spec conn connector_name finished
      (dbFinishRun db2 st.db.nextRunId (some e) total finished)]
    rcases hS : (dbFinishRun db2 st.db.nextRunId (some e) total finished).schedules.find?
        (fun s => s.connector == connector_name) with _ | s0 <;>
      rw [hS] <;>
      dsimp only <;>
      refine ⟨rfl, rfl, finishRunRow (runningRow st.db.nextRunId connector_name started)
        (some e) total finished, ?_, rfl, Or.inr ⟨rfl, rfl⟩⟩ <;>
      rw [dbFinishRun_runs, hbr,
        map_finish_append_fresh st.db.runs st.db.nextRunId (some e) total finished _ hfresh
          rfl]

/-- Witness for C1: a registered connector whose fetch raises; the exception is
caught, recorded on the Run, and the lock key is removed. -/
theorem run_connector_releases_lock_witness :
    (run_connector fzFalse sha1Zero
          [{ name := "boom", default_cadence := "*/30 * * * *",
             fetch := fun _ => Except.error (PyErr.raised "boom"),
             extract := fun _ => Except.ok [] }] "boom" (PyDatetime.mk 100 true)
          (PyDatetime.mk 105 true)
          { db := {}, locks := ["connector:boom:lock"], queue := [] }).1 = .ok () ∧
      (run_connector fzFalse sha1Zero
          [{ name := "boom", default_cadence := "*/30 * * * *",
             fetch := fun _ => Except.error (PyErr.raised "boom"),
             extract := fun _ => Except.ok [] }] "boom" (PyDatetime.mk 100 true)
          (PyDatetime.mk 105 true)
          { db := {}, locks := ["connector:boom:lock"], queue := [] }).2.locks =
        (["connector:boom:lock"].erase (lockKeyFor "boom")) ∧
      ∃ r : RunRow,
        (run_connector fzFalse sha1Zero
            [{ name := "boom", default_cadence := "*/30 * * * *",
               fetch := fun _ => Except.error (PyErr.raised "boom"),
               extract := fun _ => Except.ok [] }] "boom" (PyDatetime.mk 100 true)
            (PyDatetime.mk 105 true)
            { db := {}, locks := ["connector:boom:lock"], queue := [] }).2.db.runs =
            ({} : DB).runs ++ [r] ∧
          r.finished_at = some (PyDatetime.mk 105 true) ∧
          (r.status = "success" ∨ (r.status = "error" ∧ r.error_log.isSome = true)) :=
  run_connector_releases_lock fzFalse sha1Zero
    [{ name := "boom", default_cadence := "*/30 * * * *",
       fetch := fun _ => Except.error (PyErr.raised "boom"),
       extract := fun _ => Except.ok [] }] "boom"
    { name := "boom", default_cadence := "*/30 * * * *",
      fetch := fun _ => Except.error (PyErr.raised "boom"),
      extract := fun _ => Except.ok [] }
    (PyDatetime.mk 100 true) (PyDatetime.mk 105 true)
    { db := {}, locks := ["connector:boom:lock"], queue := [] } rfl (by simp)
    ⟨PyDatetime.mk 120 true, rfl⟩

/-- C1 counterexample: with an unregistered name the exception propagates out
of run_connector and the held lock key is not deleted, refuting the
"regardless of whether the name passed in is registered" part of the claim. -/
theorem run_connector_unregistered_lock_counterexample :
    (run_connector fzFalse sha1Zero [] "ghost" (PyDatetime.mk 1 true) (PyDatetime.mk 2 true)
        { db := {}, locks := ["connector:ghost:lock"], queue := [] }).1 =
        .error (.keyError "ghost") ∧
      (run_connector fzFalse sha1Zero [] "ghost" (PyDatetime.mk 1 true) (PyDatetime.mk 2 true)
          { db := {}, locks := ["connector:ghost:lock"], queue := [] }).2.locks =
        ["connector:ghost:lock"] :=
  ⟨rfl, rfl⟩

/-! ### Claims C7 and C8 (Scheduler sweep and Schedule bootstrap) -/

theorem find?_append_none {α : Type} (p : α → Bool) :
    ∀ l1 l2 : List α, (l1 ++ l2).find? p = none ↔ (l1.find? p = none ∧ l2.find? p = none) := by
  intro l1 l2
  induction l1 with
  | nil => simp
  | cons a as ih =>
    by_cases hp : p a
    · simp [List.find?, hp]
    · simp only [List.cons_append, List.find?, hp]
      simp [ih]

/-- The bootstrap step only appends rows: every appended row is the seed row of
some registered connector whose name had no row yet. -/
theorem ensure_schedule_rows_append :
    ∀ (registry : List Connector) (rows : List ScheduleRow),
      ∃ new, _ensure_schedule_rows registry rows = rows ++ new ∧
        ∀ r ∈ new, rows.find? (fun s => s.connector == r.connector) = none ∧
          ∃ conn, conn ∈ registry ∧ r = seedScheduleRow conn := by
  intro registry
  induction registry with
  | nil => intro rows; exact ⟨[], by simp [_ensure_schedule_rows], by simp⟩
  | cons conn rest ih =>
    intro rows
    rw [_ensure_schedule_rows]
    rcases hf : rows.find? (fun s => s.connector == conn.name) with _ | s0
    · rw [hf]
      obtain ⟨new1, heq, hprop⟩ := ih (rows ++ [seedScheduleRow conn])
      refine ⟨seedScheduleRow conn :: new1, by simpa using heq, ?_⟩
      intro r hr
      rcases List.mem_cons.mp hr with rfl | hr1
      · exact ⟨hf, conn, List.mem_cons_self conn rest, rfl⟩
      · obtain ⟨hfind, c2, hc2, hr2⟩ := hprop r hr1
        exact ⟨((find?_append_none _ rows [seedScheduleRow conn]).mp hfind).1,
          c2, List.mem_cons_of_mem conn hc2, hr2⟩
    · rw [hf]
      obtain ⟨new1, heq, hprop⟩ := ih rows
      refine ⟨new1, heq, ?_⟩
      intro r hr
      obtain ⟨hfind, c2, hc2, hr2⟩ := hprop r hr
      exact ⟨hfind, c2, List.mem_cons_of_mem conn hc2, hr2⟩

/-- The bootstrap step adds exactly one row for a registered-but-absent name
and none for a present one. -/
theorem ensure_schedule_rows_count :
    ∀ (registry : List Connector) (rows : List ScheduleRow) (name : String),
      (_ensure_schedule_rows registry rows).countP (fun s => s.connector == name) =
        rows.countP (fun s => s.connector == name) +
          (if name ∈ registry.map (fun c => c.name) ∧
              rows.find? (fun s => s.connector == name) = none then 1 else 0) := by
  intro registry
  induction registry with
  | nil => intro rows name; simp [_ensure_schedule_rows]
  | cons conn rest ih =>
    intro rows name
    rw [_ensure_schedule_rows]
    rcases hf : rows.find? (fun s => s.connector == conn.name) with _ | s0
    · rw [hf, ih (rows ++ [seedScheduleRow conn]) name]
      by_cases hn : conn.name = name
      · subst hn
        have h1 : (rows ++ [seedScheduleRow conn]).countP
            (fun s => s.connector == conn.name) =
            rows.countP (fun s => s.connector == conn.name) + 1 := by
          simp [List.countP_append, List.countP_cons, seedScheduleRow]
        have h2 : (rows ++ [seedScheduleRow conn]).find?
            (fun s => s.connector == conn.name) ≠ none := by
          rw [Ne, find?_append_none]
          intro hcon
          simp [List.find?, seedScheduleRow] at hcon
        rw [h1, if_neg (fun hcon => h2 hcon.2), if_pos ⟨by simp, hf⟩]
      · have hbne : (conn.name == name) = false := by simpa using hn
        have h1 : (rows ++ [seedScheduleRow conn]).countP (fun s => s.connector == name) =
            rows.countP (fun s => s.connector == name) := by
          simp [List.countP_append, List.countP_cons, seedScheduleRow, hbne]
        have h2 : (rows ++ [seedScheduleRow conn]).find? (fun s => s.connector == name) =
            none ↔ rows.find? (fun s => s.connector == name) = none := by
          rw [find?_append_none]
          simp [List.find?, seedScheduleRow, hbne]
        rw [h1]
        congr 1
        by_cases hmem : name ∈ rest.map (fun c => c.name)
        · by_cases habs : rows.find? (fun s => s.connector == name) = none
          · rw [if_pos ⟨hmem, h2.mpr habs⟩, if_pos ⟨by simp [hmem], habs⟩]
          · rw [if_neg (fun hcon => habs (h2.mp hcon.2)),
              if_neg (fun hcon => habs hcon.2)]
        · have hnm : name ∉ (conn :: rest).map (fun c => c.name) := by
            simp only [List.map_cons, List.mem_cons]
            rintro (h1m | h2m)
            · exact hn h1m.symm
            · exact hmem h2m
          rw [if_neg (fun hcon => hmem hcon.1), if_neg (fun hcon => hnm hcon.1)]
    · rw [hf, ih rows name]
      congr 1
      by_cases hn : conn.name = name
      · subst hn
        rw [if_neg (fun hcon => Option.some_ne_none s0 (hf ▸ hcon.2)),
          if_neg (fun hcon => Option.some_ne_none s0 (hf ▸ hcon.2))]
      · by_cases hmem : name ∈ rest.map (fun c => c.name)
        · by_cases habs : rows.find? (fun s => s.connector == name) = none
          · rw [if_pos ⟨hmem, habs⟩, if_pos ⟨by simp [hmem], habs⟩]
          · rw [if_neg (fun hcon => habs hcon.2), if_neg (fun hcon => habs hcon.2)]
        · have hnm : name ∉ (conn :: rest).map (fun c => c.name) := by
            simp only [List.map_cons, List.mem_cons]
            rintro (h1m | h2m)
            · exact hn h1m.symm
            · exact hmem h2m
          rw [if_neg (fun hcon => hmem hcon.1), if_neg (fun hcon => hnm hcon.1)]

/-- For a registered connector with distinct registry names and no existing
row, the bootstrap adds that connector's seed row. -/
theorem ensure_schedule_rows_mem :
    ∀ (registry : List Connector) (rows : List ScheduleRow) (conn : Connector),
      (registry.map (fun c => c.name)).Nodup → conn ∈ registry →
      rows.find? (fun s => s.connector == conn.name) = none →
      seedScheduleRow conn ∈ _ensure_schedule_rows registry rows := by
  intro registry
  induction registry with
  | nil => intro rows conn _ hmem; exact absurd hmem (by simp)
  | cons c rest ih =>
    intro rows conn hnodup hmem hf
    rw [_ensure_schedule_rows]
    rcases List.mem_cons.mp hmem with rfl | hmem2
    · rw [hf]
      obtain ⟨new1, heq, -⟩ := ensure_schedule_rows_append rest (rows ++ [seedScheduleRow conn])
      rw [heq]
      exact List.mem_append_left _ (List.mem_append_right _ (by simp))
    · have hne : c.name ≠ conn.name := by
        intro hcon
        have : c.name ∈ rest.map (fun x => x.name) :=
          hcon ▸ List.mem_map.mpr ⟨conn, hmem2, rfl⟩
        exact (List.nodup_cons.mp hnodup).1 this
      rcases hf0 : rows.find? (fun s => s.connector == c.name) with _ | s0
      · rw [hf0]
        have hf2 : (rows ++ [seedScheduleRow c]).find?
            (fun s => s.connector == conn.name) = none := by
          rw [find?_append_none]
          refine ⟨hf, ?_⟩
          simp [List.find?, seedScheduleRow,
            show (c.name == conn.name) = false from by simpa using hne]
        exact ih (rows ++ [seedScheduleRow c]) conn (List.nodup_cons.mp hnodup).2 hmem2 hf2
      · rw [hf0]
        exact ih rows conn (List.nodup_cons.mp hnodup).2 hmem2 hf

theorem keyCount_one_of_nodup :
    ∀ rows : List ScheduleRow, (rows.map (fun s => s.connector)).Nodup →
      ∀ (name : String) (s0 : ScheduleRow),
        rows.find? (fun s => s.connector == name) = some s0 →
        rows.countP (fun s => s.connector == name) = 1 := by
  intro rows
  induction rows with
  | nil => intro _ name s0 h; simp [List.find?] at h
  | cons a as ih =>
    intro hnodup name s0 hfind
    by_cases hp : (a.connector == name) = true
    · have hzero : as.countP (fun s => s.connector == name) = 0 := by
        rw [List.countP_eq_zero]
        intro x hx hcon
        have hxn : x.connector = name := by simpa using hcon
        have han : a.connector = name := by simpa using hp
        exact (List.nodup_cons.mp hnodup).1
          (List.mem_map.mpr ⟨x, hx, by simp [hxn, han]⟩)
      simp [List.countP_cons, hp, hzero]
    · have hpf : (a.connector == name) = false := by simpa using hp
      rw [List.find?, hpf] at hfind
      rw [List.countP_cons, if_neg (by simp [hpf])]
      simpa using ih (List.nodup_cons.mp hnodup).2 name s0 hfind

/-- C7: one Scheduler sweep never changes any existing Schedule row — not its
cadence_cron, last_run_at, next_due_at or enabled field, including for the
connectors it dispatches — and the only rows it creates are the bootstrap seed
rows for registered connectors that had none; sources, candidates, runs and
dedupe marks are untouched.  This holds unconditionally, also for sweeps that
abort with an error (the session then rolls back). -/
theorem enqueue_due_jobs_schedule_frame (env : String) (registry : List Connector)
    (now : PyDatetime) (st : WorldState) :
    ∃ new,
      (enqueue_due_jobs env registry now st).2.db.schedules = st.db.schedules ++ new ∧
        (∀ r ∈ new, st.db.schedules.find? (fun s => s.connector == r.connector) = none ∧
          ∃ conn, conn ∈ registry ∧ r = seedScheduleRow conn) ∧
        (enqueue_due_jobs env registry now st).2.db.sources = st.db.sources ∧
        (enqueue_due_jobs env registry now st).2.db.candidates = st.db.candidates ∧
        (enqueue_due_jobs env registry now st).2.db.runs = st.db.runs ∧
        (enqueue_due_jobs env registry now st).2.db.embeddings = st.db.embeddings := by
  unfold enqueue_due_jobs
  dsimp only
  rcases hD : computeDueMap registry now
      ((_ensure_schedule_rows registry st.db.schedules).filter (fun s => s.enabled)) []
      with e | dueMap
  · try rw [hD]
    exact ⟨[], by simp, by simp, rfl, rfl, rfl, rfl⟩
  · try rw [hD]
    try dsimp only
    rcases hL : dispatchLoop dueMap (_order_due_connectors env (dueMap.map (fun p => p.1)))
        st.locks st.queue with ⟨locks1, queue1, errOpt⟩
    try rw [hL]
    try dsimp only
    rcases errOpt with _ | e2
    · obtain ⟨new, heq, hprop⟩ := ensure_schedule_rows_append registry st.db.schedules
      exact ⟨new, heq, hprop, rfl, rfl, rfl, rfl⟩
    · exact ⟨[], by simp, by simp, rfl, rfl, rfl, rfl⟩

/-- C8: after one completed Scheduler sweep, every connector present in the
Registry (with its dict-unique names) has exactly one Schedule row keyed by
its name, provided the schedules table respected its primary key beforehand; a
row absent before the sweep is created as the bootstrap seed row — the
connector's default cadence, enabled, null timestamps — and a row already
present is not duplicated. -/
theorem enqueue_due_jobs_schedule_bootstrap (env : String) (registry : List Connector)
    (now : PyDatetime) (st : WorldState) (conn : Connector)
    (hnreg : (registry.map (fun c => c.name)).Nodup)
    (hnsch : (st.db.schedules.map (fun s => s.connector)).Nodup)
    (hmem : conn ∈ registry)
    (hok : (enqueue_due_jobs env registry now st).1 = .ok ()) :
    ((enqueue_due_jobs env registry now st).2.db.schedules.countP
        (fun s => s.connector == conn.name)) = 1 ∧
      (st.db.schedules.find? (fun s => s.connector == conn.name) = none →
        seedScheduleRow conn ∈ (enqueue_due_jobs env registry now st).2.db.schedules) := by
  unfold enqueue_due_jobs at hok ⊢
  dsimp only at hok ⊢
  rcases hD : computeDueMap registry now
      ((_ensure_schedule_rows registry st.db.schedules).filter (fun s => s.enabled)) []
      with e | dueMap
  · try rw [hD] at hok
    exact absurd hok (by simp)
  · try rw [hD] at hok
    try rw [hD]
    try dsimp only at hok ⊢
    rcases hL : dispatchLoop dueMap (_order_due_connectors env (dueMap.map (fun p => p.1)))
        st.locks st.queue with ⟨locks1, queue1, errOpt⟩
    try rw [hL] at hok
    try rw [hL]
    try dsimp only at hok ⊢
    rcases errOpt with _ | e2
    · dsimp only
      constructor
      · rw [ensure_schedule_rows_count registry st.db.schedules conn.name]
        rcases hf : st.db.schedules.find? (fun s => s.connector == conn.name) with _ | s0
        · rw [if_pos ⟨List.mem_map.mpr ⟨conn, hmem, rfl⟩, hf⟩]
          have h0 : st.db.schedules.countP (fun s => s.connector == conn.name) = 0 := by
            rw [List.countP_eq_zero]
            intro x hx hcon
            have := List.find?_eq_none.mp hf x hx
            exact this hcon
          rw [h0]
        · rw [if_neg (fun hcon => Option.some_ne_none s0 (hf ▸ hcon.2))]
          rw [keyCount_one_of_nodup st.db.schedules hnsch conn.name s0 hf]
      · intro habs
        exact ensure_schedule_rows_mem registry st.db.schedules conn hnreg hmem habs
    · exact absurd hok (by simp)

/-- Witness for C8: one registered connector against an empty schedules table;
the sweep returns normally, creates exactly one row for it, and that row is
the seed row. -/
theorem enqueue_due_jobs_schedule_bootstrap_witness :
    ((enqueue_due_jobs "" [stubConnector] (PyDatetime.mk 0 true)
          { db := {}, locks := [], queue := [] }).2.db.schedules.countP
        (fun s => s.connector == stubConnector.name)) = 1 ∧
      (({} : DB).schedules.find? (fun s => s.connector == stubConnector.name) = none →
        seedScheduleRow stubConnector ∈
          (enqueue_due_jobs "" [stubConnector] (PyDatetime.mk 0 true)
              { db := {}, locks := [], queue := [] }).2.db.schedules) :=
  enqueue_due_jobs_schedule_bootstrap "" [stubConnector] (PyDatetime.mk 0 true)
    { db := {}, locks := [], queue := [] } stubConnector (by simp) (by simp)
    (List.mem_singleton.mpr rfl) rfl

/-! ### Claim C4 (priority-wave dispatch order) -/

theorem filter_filter_comm {α : Type} (l : List α) (p q : α → Bool) :
    (l.filter p).filter q = (l.filter q).filter p := by
  rw [List.filter_filter, List.filter_filter]
  exact List.filter_congr (fun a _ => by cases p a <;> cases q a <;> rfl)

theorem pyDictFromKeys_filter (q : String → Bool) :
    ∀ l : List String, pyDictFromKeys (l.filter q) = (pyDictFromKeys l).filter q := by
  intro l
  induction l with
  | nil => rfl
  | cons x xs ih =>
    by_cases hq : q x = true
    · rw [show (x :: xs).filter q = x :: xs.filter q from by simp [hq]]
      show x :: (pyDictFromKeys (xs.filter q)).filter (fun y => y != x) =
          (x :: (pyDictFromKeys xs).filter (fun y => y != x)).filter q
      rw [ih, show (x :: (pyDictFromKeys xs).filter (fun y => y != x)).filter q =
          x :: ((pyDictFromKeys xs).filter (fun y => y != x)).filter q from by simp [hq]]
      exact congrArg (x :: ·) (filter_filter_comm _ _ _)
    · rw [show (x :: xs).filter q = xs.filter q from by simp [hq]]
      rw [ih]
      show (pyDictFromKeys xs).filter q =
          (x :: (pyDictFromKeys xs).filter (fun y => y != x)).filter q
      rw [show (x :: (pyDictFromKeys xs).filter (fun y => y != x)).filter q =
          ((pyDictFromKeys xs).filter (fun y => y != x)).filter q from by simp [hq],
        filter_filter_comm]
      refine (List.filter_eq_self.mpr ?_).symm
      intro y hy
      have hqy : q y = true := (List.mem_filter.mp hy).2
      have hne : y ≠ x := by
        intro hyx
        rw [hyx] at hqy
        exact absurd hqy (by simp [hq])
      simpa using hne

theorem mem_pyDictFromKeys (y : String) : ∀ l : List String, y ∈ pyDictFromKeys l ↔ y ∈ l := by
  intro l
  induction l with
  | nil => simp [pyDictFromKeys]
  | cons x xs ih =>
    rw [pyDictFromKeys]
    by_cases hxy : y = x
    · subst hxy; simp
    · simp [List.mem_filter, ih, hxy]

theorem pyDictFromKeys_nodup : ∀ l : List String, (pyDictFromKeys l).Nodup := by
  intro l
  induction l with
  | nil => simp [pyDictFromKeys]
  | cons x xs ih =>
    rw [pyDictFromKeys]
    refine List.nodup_cons.mpr ⟨?_, ih.filter _⟩
    intro hx
    have := (List.mem_filter.mp hx).2
    simp at this

theorem pyDictFromKeys_of_nodup : ∀ l : List String, l.Nodup → pyDictFromKeys l = l := by
  intro l
  induction l with
  | nil => intro _; rfl
  | cons x xs ih =>
    intro hn
    rw [pyDictFromKeys, ih (List.nodup_cons.mp hn).2]
    congr 1
    refine List.filter_eq_self.mpr ?_
    intro y hy
    have hne : y ≠ x := fun hyx => (List.nodup_cons.mp hn).1 (hyx ▸ hy)
    simpa using hne

theorem pyDictFromKeys_append : ∀ a b : List String,
    pyDictFromKeys (a ++ b) =
      pyDictFromKeys a ++ (pyDictFromKeys b).filter (fun y => !decide (y ∈ a)) := by
  intro a
  induction a with
  | nil => intro b; simp [pyDictFromKeys]
  | cons x a ih =>
    intro b
    show x :: (pyDictFromKeys (a ++ b)).filter (fun y => y != x) =
        x :: ((pyDictFromKeys a).filter (fun y => y != x) ++
          (pyDictFromKeys b).filter (fun y => !decide (y ∈ x :: a)))
    rw [ih b, List.filter_append]
    congr 2
    rw [List.filter_filter]
    refine List.filter_congr ?_
    intro y _
    by_cases h1 : y = x <;> by_cases h2 : y ∈ a <;> simp [h1, h2]

theorem takePending_acc : ∀ (l ordered pset : List String),
    takePending l ordered pset =
      (ordered ++ (takePending l [] pset).1, (takePending l [] pset).2) := by
  intro l
  induction l with
  | nil => intro ordered pset; simp [takePending]
  | cons n rest ih =>
    intro ordered pset
    by_cases hc : pset.contains n = true
    · simp only [takePending, hc, if_true, List.nil_append]
      rw [ih (ordered ++ [n]) (pset.erase n), ih [n] (pset.erase n)]
      simp
    · simp only [takePending, hc, if_false, Bool.false_eq_true]
      exact ih ordered pset

theorem takePending_fst : ∀ (l pset : List String), pset.Nodup →
    (takePending l [] pset).1 = (pyDictFromKeys l).filter (fun y => decide (y ∈ pset)) := by
  intro l
  induction l with
  | nil => intro pset _; simp [takePending, pyDictFromKeys]
  | cons n rest ih =>
    intro pset hn
    by_cases hm : n ∈ pset
    · have hc : pset.contains n = true := by simpa using hm
      simp only [takePending, hc, if_true, List.nil_append]
      rw [takePending_acc rest [n] (pset.erase n)]
      dsimp only
      rw [ih (pset.erase n) (hn.erase n)]
      show n :: (pyDictFromKeys rest).filter (fun y => decide (y ∈ pset.erase n)) =
          (n :: (pyDictFromKeys rest).filter (fun y => y != n)).filter
            (fun y => decide (y ∈ pset))
      rw [show (n :: (pyDictFromKeys rest).filter (fun y => y != n)).filter
            (fun y => decide (y ∈ pset)) =
          n :: ((pyDictFromKeys rest).filter (fun y => y != n)).filter
            (fun y => decide (y ∈ pset)) from by simp [hm]]
      congr 1
      rw [List.filter_filter]
      refine List.filter_congr ?_
      intro y _
      by_cases h1 : y = n
      · subst h1
        simp [List.Nodup.mem_erase_iff hn]
      · simp [List.Nodup.mem_erase_iff hn, h1]
    · have hc : pset.contains n = false := by simpa using hm
      simp only [takePending, hc, Bool.false_eq_true, if_false]
      rw [ih pset hn]
      show (pyDictFromKeys rest).filter (fun y => decide (y ∈ pset)) =
          (n :: (pyDictFromKeys rest).filter (fun y => y != n)).filter
            (fun y => decide (y ∈ pset))
      rw [show (n :: (pyDictFromKeys rest).filter (fun y => y != n)).filter
            (fun y => decide (y ∈ pset)) =
          ((pyDictFromKeys rest).filter (fun y => y != n)).filter
            (fun y => decide (y ∈ pset)) from by simp [hm],
        filter_filter_comm]
      refine (List.filter_eq_self.mpr ?_).symm
      intro y hy
      have hyp : y ∈ pset := by simpa using (List.mem_filter.mp hy).2
      have hne : y ≠ n := fun hyn => hm (hyn ▸ hyp)
      simpa using hne

theorem takePending_snd : ∀ (l pset : List String), pset.Nodup →
    (takePending l [] pset).2 = pset.filter (fun y => !decide (y ∈ l)) := by
  intro l
  induction l with
  | nil => intro pset _; simp [takePending]
  | cons n rest ih =>
    intro pset hn
    by_cases hm : n ∈ pset
    · have hc : pset.contains n = true := by simpa using hm
      simp only [takePending, hc, if_true, List.nil_append]
      rw [takePending_acc rest [n] (pset.erase n)]
      dsimp only
      rw [ih (pset.erase n) (hn.erase n), List.Nodup.erase_eq_filter hn n,
        List.filter_filter]
      refine List.filter_congr ?_
      intro y _
      by_cases h1 : y = n
      · subst h1; simp
      · by_cases h2 : y ∈ rest <;> simp [h1, h2]
    · have hc : pset.contains n = false := by simpa using hm
      simp only [takePending, hc, Bool.false_eq_true, if_false]
      rw [ih pset hn]
      refine List.filter_congr ?_
      intro y hy
      have hne : y ≠ n := fun hyn => hm (hyn ▸ hy)
      simp [hne]

theorem takeWaves_acc : ∀ (ws : List (List String)) (ordered pset : List String),
    takeWaves ws ordered pset =
      (ordered ++ (takeWaves ws [] pset).1, (takeWaves ws [] pset).2) := by
  intro ws
  induction ws with
  | nil => intro ordered pset; simp [takeWaves]
  | cons w ws ih =>
    intro ordered pset
    simp only [takeWaves]
    rcases hw : takePending w [] pset with ⟨o1, p1⟩
    rw [takePending_acc w ordered pset, hw]
    dsimp only
    rw [ih (ordered ++ o1) p1, ih o1 p1]
    simp [List.append_assoc]

theorem takeWaves_spec : ∀ (ws : List (List String)) (pset : List String), pset.Nodup →
    (takeWaves ws [] pset).1 =
        (pyDictFromKeys ws.flatten).filter (fun y => decide (y ∈ pset)) ∧
      (takeWaves ws [] pset).2 = pset.filter (fun y => !decide (y ∈ ws.flatten)) := by
  intro ws
  induction ws with
  | nil => intro pset _; simp [takeWaves, pyDictFromKeys]
  | cons w ws ih =>
    intro pset hn
    simp only [takeWaves]
    rcases hw : takePending w [] pset with ⟨o1, p1⟩
    have ho1 : o1 = (pyDictFromKeys w).filter (fun y => decide (y ∈ pset)) := by
      have h := takePending_fst w pset hn
      rw [hw] at h
      exact h
    have hp1 : p1 = pset.filter (fun y => !decide (y ∈ w)) := by
      have h := takePending_snd w pset hn
      rw [hw] at h
      exact h
    have hp1n : p1.Nodup := hp1 ▸ hn.filter _
    rw [takeWaves_acc ws o1 p1]
    obtain ⟨hW1, hW2⟩ := ih p1 hp1n
    constructor
    · dsimp only
      rw [hW1, ho1, hp1, List.flatten_cons, pyDictFromKeys_append, List.filter_append]
      congr 1
      rw [List.filter_filter]
      refine List.filter_congr ?_
      intro y _
      by_cases h1 : y ∈ w <;> by_cases h2 : y ∈ pset <;>
        simp [List.mem_filter, h1, h2]
    · dsimp only
      rw [hW2, hp1, List.filter_filter, List.flatten_cons]
      refine List.filter_congr ?_
      intro y _
      by_cases h1 : y ∈ w <;> by_cases h2 : y ∈ ws.flatten <;> simp [h1, h2]

/-- C4: _order_due_connectors lists the due names that belong to priority waves
first, in wave order with earlier waves before later ones (the first-occurrence
order of the flattened wave list), and then appends the due names mentioned in
no wave, preserving their original due-set order; in particular with wave
configuration "b,a" and due connectors a, b the dispatch order is exactly
[b, a]. -/
theorem order_due_connectors_priority_waves :
    (∀ (env : String) (names : List String),
      _order_due_connectors env names =
        (pyDictFromKeys (_parse_priority_waves env).flatten).filter
            (fun n => decide (n ∈ names)) ++
          (pyDictFromKeys names).filter
            (fun n => !decide (n ∈ (_parse_priority_waves env).flatten))) ∧
      _order_due_connectors "b,a" ["a", "b"] = ["b", "a"] := by
  constructor
  · intro env names
    simp only [_order_due_connectors]
    by_cases he : (pyDictFromKeys names).isEmpty = true
    · rw [if_pos he]
      have hnil : pyDictFromKeys names = [] := by simpa using he
      have hnames : names = [] := by
        cases names with
        | nil => rfl
        | cons a l => simp [pyDictFromKeys] at hnil
      subst hnames
      simp [pyDictFromKeys]
    · rw [if_neg he]
      rcases hw : takeWaves (_parse_priority_waves env) [] (pyDictFromKeys names)
        with ⟨o1, p1⟩
      try rw [hw]
      dsimp only
      obtain ⟨hW1, hW2⟩ :=
        takeWaves_spec (_parse_priority_waves env) (pyDictFromKeys names)
          (pyDictFromKeys_nodup names)
      rw [hw] at hW1 hW2
      dsimp only at hW1 hW2
      have hp1n : p1.Nodup := by
        rw [hW2]
        exact (pyDictFromKeys_nodup names).filter _
      rw [takePending_acc (pyDictFromKeys names) o1 p1]
      dsimp only
      rw [takePending_fst (pyDictFromKeys names) p1 hp1n,
        pyDictFromKeys_of_nodup (pyDictFromKeys names) (pyDictFromKeys_nodup names),
        hW1, hW2]
      congr 1
      · refine List.filter_congr ?_
        intro y _
        simp [mem_pyDictFromKeys]
      · refine List.filter_congr ?_
        intro y hy
        rw [← decide_not]
        refine decide_eq_decide.mpr ?_
        rw [List.mem_filter]
        constructor
        · intro h
          simpa using h.2
        · intro h
          exact ⟨hy, by simpa using h⟩
  · rfl
